import Mathlib

/-!
Verification development for the s3mgr repository (Go).

The definitions below are a shallow embedding of the Configuration Registry,
the Backend Client Factory and the Transfer Engine of `src/s3.go`.  The
BadgerDB key/value store is modelled as an association list from string keys
to decoded `S3Config` records; every key written by the code has the shape
`user_config_{userID}_{configID}` (`fmt.Sprintf` in `saveConfig`,
`getConfigByID`, `deleteConfig`) and every per-user read iterates over the
keys with the byte-string prefix `user_config_{userID}_`
(`getUserConfigs`).  Badger iterates keys in byte order; none of the
properties proved here depends on the iteration order, so the store is kept
as an insertion-ordered association list.  Backend (S3) calls and the AWS
session constructor are oracles passed in as explicit parameters: the code
under verification only branches on whether they succeed, never on their
internals.
-/

namespace S3mgr

/-! ## String primitives

Go's `strings.HasPrefix` / badger's `ValidForPrefix` test whether one byte
string starts with another; `strings.TrimPrefix` drops the leading
occurrence when present and otherwise returns the string unchanged.  They
are embedded through the character lists underlying Lean strings. -/

/-- Go `strings.HasPrefix s pre` (also badger `ValidForPrefix`). -/
def strHasPre (s pre : String) : Bool :=
  pre.data.isPrefixOf s.data

/-- Go `strings.TrimPrefix s pre`. -/
def goTrimPre (s pre : String) : String :=
  if strHasPre s pre then String.mk (s.data.drop pre.data.length) else s

/-! ## Data model (`S3Config`, `src/s3.go` lines 22-36) -/

structure S3Config where
  id          : String
  userID      : String
  name        : String
  accessKey   : String
  secretKey   : String
  region      : String
  bucketName  : String
  endpointURL : String
  useSSL      : Bool
  storageType : String
  isDefault   : Bool
  createdAt   : String
  updatedAt   : String
deriving DecidableEq, Repr

/-- The badger store: keys mapped to decoded `S3Config` records. -/
abbrev DB := List (String × S3Config)

/-- Key prefix `user_config_{userID}_` used by `getUserConfigs` (line 85). -/
def userKeyPre (userID : String) : String :=
  "user_config_" ++ userID ++ "_"

/-- Full key `user_config_{userID}_{configID}` (lines 110, 140, 201). -/
def configKey (userID configID : String) : String :=
  userKeyPre userID ++ configID

/-- Badger `txn.Set`: store a value at a key, replacing any existing entry. -/
def dbSet (db : DB) (key : String) (c : S3Config) : DB :=
  match db with
  | [] => [(key, c)]
  | kv :: rest => if kv.1 = key then (key, c) :: rest else kv :: dbSet rest key c

/-- Badger `txn.Delete`: remove the entry at a key (a no-op when absent). -/
def dbDelete (db : DB) (key : String) : DB :=
  db.filter (fun kv => !(kv.1 == key))

/-- Badger `txn.Get`: look up the value stored at a key. -/
def dbGet (db : DB) (key : String) : Option S3Config :=
  (db.find? (fun kv => kv.1 == key)).map (·.2)

/-! ## Configuration Registry internals (`src/s3.go` lines 77-251) -/

/-- Model of `getUserConfigs` (lines 77-104): iterate over all keys with prefix
`user_config_{userID}_` and decode each value. -/
def getUserConfigs (db : DB) (userID : String) : List S3Config :=
  (db.filter (fun kv => strHasPre kv.1 (userKeyPre userID))).map (·.2)

/-- Model of `getConfigByID` (lines 106-126): point lookup of
`user_config_{userID}_{configID}`. -/
def getConfigByID (db : DB) (userID configID : String) : Option S3Config :=
  dbGet db (configKey userID configID)

/-- Model of `saveConfig` (lines 128-143): stamp `UpdatedAt` with the current time,
backfill `CreatedAt` when empty, and store under the config's own key. -/
def saveConfig (db : DB) (config : S3Config) (now : String) : DB :=
  let config := { config with
    updatedAt := now
    createdAt := if config.createdAt = "" then now else config.createdAt }
  dbSet db (configKey config.userID config.id) config

/-- The record as `saveConfig` stamps it before writing. -/
def stamped (config : S3Config) (now : String) : S3Config :=
  { config with
    updatedAt := now
    createdAt := if config.createdAt = "" then now else config.createdAt }

/-- Model of `deleteConfig` (lines 199-204). -/
def deleteConfig (db : DB) (userID configID : String) : DB :=
  dbDelete db (configKey userID configID)

/-- Model of `setDefaultConfig` (lines 207-231): over a snapshot of the user's
configs, first clear `IsDefault` on every record that has it set, then set
it on the first record whose id matches (the loop breaks there). -/
def setDefaultConfig (db : DB) (userID configID now : String) : DB :=
  let configs := getUserConfigs db userID
  let db1 := configs.foldl
    (fun d c => if c.isDefault then saveConfig d { c with isDefault := false } now else d) db
  match configs.find? (fun c => c.id == configID) with
  | some c => saveConfig db1 { c with isDefault := true } now
  | none => db1

/-- Model of `getDefaultConfig` (lines 233-251): the flagged record, else the first
record, else an error (`none`). -/
def getDefaultConfig (db : DB) (userID : String) : Option S3Config :=
  let configs := getUserConfigs db userID
  match configs.find? (fun c => c.isDefault) with
  | some c => some c
  | none => configs.head?

/-! ## Registry handlers (`src/s3.go` lines 146-196, 766-907)

The connectivity probe (`createS3Client` plus a one-key `ListObjects`) that
the create/update handlers run is environment I/O; it is passed in as the
boolean oracle `validateOk`, and a failed probe leaves the store untouched
exactly as the early `return`s in the handlers do. -/

inductive CreateOutcome
  | badRequest
  | connectFailed
  | created (id : String)
deriving DecidableEq, Repr

/-- Model of `CreateConfig` (lines 782-826): bind the draft, overwrite `ID` and
`UserID`, validate connectivity, force `IsDefault` only when the user has
zero existing configs, and save.  All other draft fields — including
`IsDefault` — are kept as sent by the client. -/
def CreateConfig (db : DB) (userID : String) (draft : S3Config)
    (newID now : String) (validateOk : Bool) : DB × CreateOutcome :=
  let config := { draft with id := newID, userID := userID }
  if !validateOk then (db, .connectFailed)
  else
    let existingConfigs := getUserConfigs db userID
    let config := if existingConfigs.length = 0 then { config with isDefault := true } else config
    (saveConfig db config now, .created newID)

inductive DeleteOutcome
  | lastConfigError
  | deleted
deriving DecidableEq, Repr

/-- Model of the `DeleteConfig` handler (lines 146-184): refuse when the user has at
most one config; otherwise delete the key, and when the deleted record was
the default promote the first remaining snapshot record. -/
def DeleteConfig (db : DB) (userID configID now : String) : DB × DeleteOutcome :=
  let configs := getUserConfigs db userID
  if configs.length ≤ 1 then (db, .lastConfigError)
  else
    let db1 := deleteConfig db userID configID
    let deletedWasDefault := configs.any (fun c => c.id == configID && c.isDefault)
    let db2 :=
      if deletedWasDefault && decide (configs.length > 1) then
        match configs.find? (fun c => !(c.id == configID)) with
        | some cfg => setDefaultConfig db1 userID cfg.id now
        | none => db1
      else db1
    (db2, .deleted)

inductive UpdateOutcome
  | notFound
  | connectFailed
  | lastConfigError
  | deletedOk
deriving DecidableEq, Repr

/-- Model of the `UpdateConfig` handler (lines 828-907), exactly as written: fetch the
existing record, merge the patch while preserving `ID`, `UserID`,
`CreatedAt` and `IsDefault`, validate connectivity, save the merged record
— and then fall into a duplicated copy of the delete-handler body, which
re-reads the just-saved record, refuses when it is the user's only config
(responding with the delete handler's error), and otherwise deletes it and
promotes a new default when it was the default. -/
def UpdateConfig (db : DB) (userID configID : String) (patch : S3Config)
    (now now2 : String) (validateOk : Bool) : DB × UpdateOutcome :=
  match getConfigByID db userID configID with
  | none => (db, .notFound)
  | some existingConfig =>
    let updateData := { patch with
      id := existingConfig.id
      userID := existingConfig.userID
      createdAt := existingConfig.createdAt
      isDefault := existingConfig.isDefault }
    if !validateOk then (db, .connectFailed)
    else
      let db1 := saveConfig db updateData now
      match getConfigByID db1 userID configID with
      | none => (db1, .notFound)
      | some config =>
        let configs := getUserConfigs db1 userID
        if configs.length ≤ 1 then (db1, .lastConfigError)
        else
          let db2 := deleteConfig db1 userID configID
          let db3 :=
            if config.isDefault && decide (configs.length > 1) then
              match configs.find? (fun c => !(c.id == configID)) with
              | some cfg => setDefaultConfig db2 userID cfg.id now2
              | none => db2
            else db2
          (db3, .deletedOk)

inductive GetConfigOutcome
  | notFound404
  | forbidden403
  | ok200 (config : S3Config)
deriving DecidableEq, Repr

/-- Model of the `GetConfigByID` handler (lines 766-780): look the id up under the
caller's own key space, 404 when absent, 403 when the decoded record's
`UserID` differs from the caller and the caller is not an admin, else the
full record (secret included). -/
def GetConfigByID (db : DB) (callerID : String) (isAdmin : Bool)
    (configID : String) : GetConfigOutcome :=
  match getConfigByID db callerID configID with
  | none => .notFound404
  | some config =>
    if !(config.userID == callerID) && !isAdmin then .forbidden403 else .ok200 config

/-- Go helper `min` (lines 947-952). -/
def goMin (a b : Nat) : Nat := if a < b then a else b

/-- The fields of one entry of the `GetConfigs` response (lines 747-759).
There is no secret-key field: the handler never touches `SecretKey`. -/
structure SafeConfig where
  id          : String
  name        : String
  region      : String
  bucketName  : String
  accessKey   : String
  endpointURL : String
  useSSL      : Bool
  storageType : String
  isDefault   : Bool
  createdAt   : String
  updatedAt   : String
deriving DecidableEq, Repr

/-- One redacted entry: `access_key` is truncated to its first
`min 4 (len)` bytes plus `"****"`; the secret key is omitted.  Go's byte
slicing is embedded as character-list slicing, as everywhere in this
development. -/
def toSafeConfig (config : S3Config) : SafeConfig :=
  { id := config.id
    name := config.name
    region := config.region
    bucketName := config.bucketName
    accessKey := String.mk (config.accessKey.data.take (goMin 4 config.accessKey.data.length)) ++ "****"
    endpointURL := config.endpointURL
    useSSL := config.useSSL
    storageType := config.storageType
    isDefault := config.isDefault
    createdAt := config.createdAt
    updatedAt := config.updatedAt }

/-- Model of the `GetConfigs` handler (lines 738-763): the user's configs, each redacted. -/
def GetConfigs (db : DB) (userID : String) : List SafeConfig :=
  (getUserConfigs db userID).map toSafeConfig

/-- The string values appearing in one `GetConfigs` response entry. -/
def safeStringFields (sc : SafeConfig) : List String :=
  [sc.id, sc.name, sc.region, sc.bucketName, sc.accessKey, sc.endpointURL,
   sc.storageType, sc.createdAt, sc.updatedAt]

/-! ## Backend Client Factory (`createS3Client`, `src/s3.go` lines 51-75)

`session.NewSession` performs environment-dependent work (shared config,
env vars) and returns `(*Session, error)`; its outcome is the boolean
oracle `sessionFails`.  The `minio` branch checks the error and returns
`nil` (fails closed); the other branch wraps the same call in
`session.Must`, which panics when the error is non-nil. -/

inductive ClientResult
  | client (region endpointOpt : Option String) (forcePathStyle : Bool)
      (disableSSLOpt : Option Bool) (accessKey secretKey : String)
  | nilClient
  | panicked
deriving DecidableEq, Repr

def createS3Client (sessionFails : Bool) (config : S3Config) : ClientResult :=
  if config.storageType == "minio" then
    if sessionFails then .nilClient
    else .client (some config.region) (some config.endpointURL) true
      (some !config.useSSL) config.accessKey config.secretKey
  else
    if sessionFails then .panicked
    else .client (some config.region) none false none config.accessKey config.secretKey

/-! ## Transfer Engine: key namespacing (`src/s3.go` lines 289-290, 444-445, 510, 581-582) -/

/-- The tenant key prefix `users/{userID}/`. -/
def userObjKeyPre (userID : String) : String :=
  "users/" ++ userID ++ "/"

/-- Destination key on upload: `users/{userID}/{filename}` (line 290). -/
def uploadKey (userID filename : String) : String :=
  userObjKeyPre userID ++ filename

/-- Key fetched on download: `users/{userID}/{key}` (line 445). -/
def downloadFullKey (userID key : String) : String :=
  userObjKeyPre userID ++ key

/-- Key removed on delete: `users/{userID}/{key}` (line 582). -/
def deleteFullKey (userID key : String) : String :=
  userObjKeyPre userID ++ key

/-! ## Transfer Engine: upload (`UploadFile`, `src/s3.go` lines 256-412)

The HTTP stream is modelled as the list of successive results of
`file.Read(buffer)` with the fixed 5 MiB buffer: each element carries the
byte count returned and whether the accompanying error was nil, `io.EOF`,
or a real read error.  The S3 backend is the oracle `Backend`: whether
`CreateMultipartUpload` succeeds, which part numbers `UploadPart` accepts,
and whether `CompleteMultipartUpload` succeeds.  The trace records each
backend call the handler makes, in order. -/

def multipartThreshold : Nat := 5 * 1024 * 1024

def partSize : Nat := 5 * 1024 * 1024

/-- One result of `file.Read(buffer)`: `(n, nil)`, `(n, io.EOF)`,
`(0, io.EOF)`, or `(0, err)` with a non-EOF error. -/
inductive ReadRes
  | bytes (n : Nat)
  | bytesEOF (n : Nat)
  | eof
  | readErr
deriving DecidableEq, Repr

structure Backend where
  initOk : Bool
  partOk : Nat → Bool
  completeOk : Bool
  putOk : Bool

inductive MPEvent
  | initiate
  | uploadPart (partNumber : Nat)
  | abort
  | complete
  | putObject
deriving DecidableEq, Repr

/-- Outcome of `UploadFile` as observed by the caller: success, or the
error response whose audit record is tagged with the given stage. -/
inductive UploadOutcome
  | ok
  | failedAt (stage : String)
deriving DecidableEq, Repr

/-- The part loop of lines 316-362 followed by completion (lines 364-380).
On `(0, io.EOF)` it breaks to completion; on a zero-byte non-nil error it
returns the read error without any further backend call; otherwise it
uploads the chunk as the next part, aborting the session (line 340) and
returning when the part upload fails, and breaks to completion when the
read had also reported `io.EOF`. -/
def multipartLoop (B : Backend) (stream : List ReadRes) (partNumber : Nat)
    (trace : List MPEvent) : List MPEvent × UploadOutcome :=
  let completeStep (tr : List MPEvent) : List MPEvent × UploadOutcome :=
    if B.completeOk then (tr ++ [.complete], .ok)
    else (tr ++ [.complete], .failedAt "complete_multipart")
  match stream with
  | [] => completeStep trace
  | r :: rest =>
    match r with
    | .eof => completeStep trace
    | .readErr => (trace, .failedAt "read_part")
    | .bytes _ =>
      if B.partOk partNumber then
        multipartLoop B rest (partNumber + 1) (trace ++ [.uploadPart partNumber])
      else (trace ++ [.uploadPart partNumber, .abort], .failedAt "upload_part")
    | .bytesEOF _ =>
      if B.partOk partNumber then
        completeStep (trace ++ [.uploadPart partNumber])
      else (trace ++ [.uploadPart partNumber, .abort], .failedAt "upload_part")

/-- The multipart branch of `UploadFile` (lines 296-389): initiate, then
the part loop. -/
def multipartUpload (B : Backend) (stream : List ReadRes) : List MPEvent × UploadOutcome :=
  if B.initOk then multipartLoop B stream 1 [.initiate]
  else ([.initiate], .failedAt "initiate_multipart")

/-- Model of `UploadFile`'s strategy branch (lines 293-296): multipart exactly when
`header.Size > 5*1024*1024`, else a single `PutObject` (lines 392-404). -/
def UploadFile (B : Backend) (stream : List ReadRes) (fileSize : Nat) :
    List MPEvent × UploadOutcome :=
  if fileSize > multipartThreshold then multipartUpload B stream
  else if B.putOk then ([.putObject], .ok)
  else ([.putObject], .failedAt "put_object")

/-! ## Transfer Engine: list (`ListFiles`, `src/s3.go` lines 477-550)

A backend object is a key plus a size; `ListObjects` with a `Prefix`
returns exactly the objects whose key starts with the prefix (S3 list
semantics). -/

structure S3Object where
  key : String
  size : Nat
deriving DecidableEq, Repr

/-- One entry of the `files` array in the `ListFiles` response. -/
structure FileEntry where
  key : String
  fullKey : String
  size : Nat
deriving DecidableEq, Repr

/-- Lines 519-531: strip the tenant prefix from each listed key and drop
entries that collapse to the empty string. -/
def visibleFiles (objects : List S3Object) (userID : String) : List FileEntry :=
  ((objects.filter (fun o => strHasPre o.key (userObjKeyPre userID))).filterMap
    (fun o =>
      let displayKey := goTrimPre o.key (userObjKeyPre userID)
      if displayKey = "" then none
      else some { key := displayKey, fullKey := o.key, size := o.size }))

structure ListResult where
  files : List FileEntry
  total : Nat
  page : Int
  pageSize : Int
deriving DecidableEq, Repr

/-- Model of `ListFiles` (lines 477-550): clamp `page` and `pageSize` (lines
488-493), list under the tenant prefix, strip and filter (lines 519-531),
then slice in memory with bounds clamped to the total (lines 532-541). -/
def ListFiles (objects : List S3Object) (userID : String) (page pageSize : Int) :
    ListResult :=
  let page := if page < 1 then 1 else page
  let pageSize := if pageSize < 1 ∨ pageSize > 100 then 10 else pageSize
  let files := visibleFiles objects userID
  let total := files.length
  let start := (page - 1) * pageSize
  let endIdx := start + pageSize
  let start := if start > (total : Int) then (total : Int) else start
  let endIdx := if endIdx > (total : Int) then (total : Int) else endIdx
  { files := (files.drop start.toNat).take (endIdx - start).toNat
    total := total
    page := page
    pageSize := pageSize }

/-! ## Transfer Engine: download (`DownloadFile`, `src/s3.go` lines 416-474)

The `GetObject` oracle distinguishes a missing key (`NoSuchKey`) from any
other backend failure; the handler itself does not. -/

inductive GetObjectRes
  | found (contentType : String) (contentLength : Option Int)
  | noSuchKey
  | otherErr (msg : String)
deriving DecidableEq, Repr

/-- An HTTP outcome: status code plus, on success, the served key. -/
structure HttpOutcome where
  status : Nat
  servedKey : Option String
deriving DecidableEq, Repr

/-- Model of `DownloadFile` (lines 416-474): resolve the config (`config_id` query
param, empty string meaning "use the default"), build the client, fetch
`users/{userID}/{key}`, and map every `GetObject` error to a 500 response
with the wrapped message; only a resolution failure gives 404. -/
def DownloadFile (db : DB) (userID configID key : String)
    (sessionFails : Bool) (getObject : String → GetObjectRes) : HttpOutcome :=
  let config := if !(configID == "") then getConfigByID db userID configID
                else getDefaultConfig db userID
  match config with
  | none => { status := 404, servedKey := none }
  | some config =>
    match createS3Client sessionFails config with
    | .nilClient => { status := 500, servedKey := none }
    | .panicked => { status := 0, servedKey := none }  -- the request dies; no response
    | .client _ _ _ _ _ _ =>
      let fullKey := userObjKeyPre userID ++ key
      match getObject fullKey with
      | .found _ _ => { status := 200, servedKey := some fullKey }
      | .noSuchKey => { status := 500, servedKey := none }
      | .otherErr _ => { status := 500, servedKey := none }

/-! ## Abstract views and invariants used by the proofs -/

/-- Replace the first record with the same id, or append (the effect of a
`txn.Set` on the slice of one user's records). -/
def upsert (L : List S3Config) (c : S3Config) : List S3Config :=
  match L with
  | [] => [c]
  | x :: xs => if x.id = c.id then c :: xs else x :: upsert xs c

/-- The effect of the clearing loop of `setDefaultConfig` on one record. -/
def clearStamp (now : String) (c : S3Config) : S3Config :=
  if c.isDefault then stamped { c with isDefault := false } now else c

/-- The record `UpdateConfig` saves: the patch with `ID`, `UserID`,
`CreatedAt` and `IsDefault` carried over from the existing record
(lines 844-848). -/
def mergedPatch (patch ex : S3Config) : S3Config :=
  { patch with
    id := ex.id
    userID := ex.userID
    createdAt := ex.createdAt
    isDefault := ex.isDefault }

/-- The string contains no underscore.  User ids are usernames chosen at
registration; an underscore inside a username makes the badger key prefix
`user_config_{userID}_` ambiguous between users, so the per-user theorems
below are proved for underscore-free ids. -/
def noUnd (s : String) : Prop := ('_' : Char) ∉ s.data

instance (s : String) : Decidable (noUnd s) :=
  inferInstanceAs (Decidable (('_' : Char) ∉ s.data))

/-- The string contains no slash (object keys namespace users by `/`). -/
def noSlash (s : String) : Prop := ('/' : Char) ∉ s.data

instance (s : String) : Decidable (noSlash s) :=
  inferInstanceAs (Decidable (('/' : Char) ∉ s.data))

/-- Well-formedness of the store: every entry sits under the key derived
from its own `UserID` and `ID` (which is how `saveConfig` writes), keys are
unique (badger is a map), and stored owner ids are underscore-free. -/
structure Good (db : DB) : Prop where
  wk : ∀ kv ∈ db, kv.1 = configKey kv.2.userID kv.2.id
  nd : (db.map (fun kv => kv.1)).Nodup
  uf : ∀ kv ∈ db, noUnd kv.2.userID

/-- The single-default invariant of the spec, per owner. -/
def DefaultInv (db : DB) : Prop :=
  ∀ u, noUnd u → 0 < (getUserConfigs db u).length →
    (getUserConfigs db u).countP (fun c => c.isDefault) = 1

/-- Well-formedness together with the single-default invariant. -/
def GoodInv (db : DB) : Prop := Good db ∧ DefaultInv db

/-- Stores reachable from the empty store by registry handler calls, under
the side conditions of the amended claim C1: owner ids are underscore-free,
a create's draft never claims the default flag (the handler itself forces
it for a first config), a create's generated id is fresh, and a
`setDefaultConfig` call targets an id the owner actually has. -/
inductive Reach : DB → Prop
  | protected empty : Reach []
  | protected create (db : DB) (u : String) (draft : S3Config) (newID now : String)
      (ok : Bool) : Reach db → noUnd u → draft.isDefault = false →
      configKey u newID ∉ db.map (fun kv => kv.1) →
      Reach (CreateConfig db u draft newID now ok).1
  | protected update (db : DB) (u cid : String) (patch : S3Config) (now now2 : String)
      (ok : Bool) : Reach db → noUnd u →
      Reach (UpdateConfig db u cid patch now now2 ok).1
  | protected setDefault (db : DB) (u cid now : String) : Reach db → noUnd u →
      (∃ c ∈ getUserConfigs db u, c.id = cid) →
      Reach (setDefaultConfig db u cid now)
  | protected delete (db : DB) (u cid now : String) : Reach db → noUnd u →
      Reach (DeleteConfig db u cid now).1

/-! ## Concrete scenarios used by counterexamples and witnesses -/

/-- A template configuration record as a client would post it. -/
def cfgBase : S3Config :=
  { id := "", userID := "", name := "one", accessKey := "AKIA1234EXAMPLE",
    secretKey := "ZZZZZZZZ", region := "us-east-1", bucketName := "bucket-a",
    endpointURL := "", useSSL := true, storageType := "aws", isDefault := false,
    createdAt := "", updatedAt := "" }

/-- Owner alice's store after a first successful create. -/
def c1db1 : DB := (CreateConfig [] "alice" cfgBase "config_1" "t1" true).1

/-- Alice's store after a second create whose draft carries `isDefault = true`. -/
def c1db2 : DB :=
  (CreateConfig c1db1 "alice" { cfgBase with name := "two", isDefault := true }
    "config_2" "t2" true).1

/-- Alice's first store after `setDefaultConfig` with an unknown id. -/
def c1db3 : DB := setDefaultConfig c1db1 "alice" "missing" "t3"

/-- Owner bob's store with two configs (`config_1` is the default). -/
def c2db : DB :=
  (CreateConfig (CreateConfig [] "bob" cfgBase "config_1" "t1" true).1
    "bob" { cfgBase with name := "second" } "config_2" "t2" true).1

/-- The `UpdateConfig` call of claim C2: rename `config_1`. -/
def c2run : DB × UpdateOutcome :=
  UpdateConfig c2db "bob" "config_1" { cfgBase with name := "renamed" } "t3" "t4" true

/-- A backend oracle on which every call succeeds. -/
def allOkBackend : Backend :=
  { initOk := true, partOk := fun _ => true, completeOk := true, putOk := true }

/-- A backend oracle on which the upload of part 2 fails. -/
def part2FailsBackend : Backend :=
  { initOk := true, partOk := fun p => !(p == 2), completeOk := true, putOk := true }

/-- A backend oracle on which `CompleteMultipartUpload` fails. -/
def completeFailsBackend : Backend :=
  { initOk := true, partOk := fun _ => true, completeOk := false, putOk := true }

/-- A self-hosted (minio) configuration. -/
def cfgMinio : S3Config :=
  { cfgBase with storageType := "minio", endpointURL := "http://localhost:9000" }

/-- A store holding alice's config `c1` (her default). -/
def c7db : DB :=
  [(configKey "alice" "c1", { cfgBase with id := "c1", userID := "alice", isDefault := true })]

/-! # Proofs

## Generic facts about separator-delimited character lists -/

theorem sep_append_inj {x : Char} {a b c d : List Char}
    (ha : x ∉ a) (hb : x ∉ b) (h : a ++ x :: c = b ++ x :: d) : a = b ∧ c = d := by
  induction a generalizing b with
  | nil =>
    cases b with
    | nil => simpa using h
    | cons z zs =>
      simp only [List.nil_append, List.cons_append, List.cons.injEq] at h
      exact absurd (h.1 ▸ List.mem_cons_self z zs) hb
  | cons y ys ih =>
    cases b with
    | nil =>
      simp only [List.cons_append, List.nil_append, List.cons.injEq] at h
      exact absurd (h.1 ▸ List.mem_cons_self y ys) ha
    | cons z zs =>
      simp only [List.cons_append, List.cons.injEq] at h
      have ha2 : x ∉ ys := fun hm => ha (List.mem_cons_of_mem y hm)
      have hb2 : x ∉ zs := fun hm => hb (List.mem_cons_of_mem z hm)
      obtain ⟨h1, h2⟩ := ih ha2 hb2 h.2
      exact ⟨by rw [h.1, h1], h2⟩

theorem sep_prefix_iff {x : Char} {a b c : List Char} (ha : x ∉ a) (hb : x ∉ b) :
    (a ++ [x]) <+: (b ++ x :: c) ↔ a = b := by
  constructor
  · intro h
    induction a generalizing b with
    | nil =>
      cases b with
      | nil => rfl
      | cons z zs =>
        rw [List.nil_append, List.cons_append, List.cons_prefix_cons] at h
        exact absurd (h.1 ▸ List.mem_cons_self z zs) hb
    | cons y ys ih =>
      cases b with
      | nil =>
        rw [List.cons_append, List.nil_append, List.cons_prefix_cons] at h
        exact absurd (h.1 ▸ List.mem_cons_self y ys) ha
      | cons z zs =>
        rw [List.cons_append, List.cons_append, List.cons_prefix_cons] at h
        have ha2 : x ∉ ys := fun hm => ha (List.mem_cons_of_mem y hm)
        have hb2 : x ∉ zs := fun hm => hb (List.mem_cons_of_mem z hm)
        rw [h.1, ih ha2 hb2 h.2]
  · rintro rfl
    have : a ++ x :: c = (a ++ [x]) ++ c := by simp
    rw [this]
    exact List.prefix_append _ _

/-! ## String-level bridges -/

theorem strHasPre_iff (s pre : String) : strHasPre s pre = true ↔ pre.data <+: s.data := by
  simp [strHasPre, List.isPrefixOf_iff_prefix]

theorem configKey_data (u cid : String) :
    (configKey u cid).data = "user_config_".data ++ (u.data ++ '_' :: cid.data) := by
  simp [configKey, userKeyPre, String.data_append]

theorem userKeyPre_data (u : String) :
    (userKeyPre u).data = "user_config_".data ++ (u.data ++ ['_']) := by
  simp [userKeyPre, String.data_append]

theorem noUnd_iff (s : String) : noUnd s ↔ ('_' : Char) ∉ s.data := Iff.rfl

theorem strHasPre_configKey {u v : String} (cid : String) (hu : noUnd u) (hv : noUnd v) :
    strHasPre (configKey v cid) (userKeyPre u) = true ↔ u = v := by
  rw [strHasPre_iff, configKey_data, userKeyPre_data, List.prefix_append_right_inj,
    sep_prefix_iff hu hv]
  constructor
  · intro h; exact String.ext h
  · intro h; rw [h]

theorem strHasPre_configKey_self (u cid : String) :
    strHasPre (configKey u cid) (userKeyPre u) = true := by
  rw [strHasPre_iff, configKey_data, userKeyPre_data, List.prefix_append_right_inj]
  have : u.data ++ '_' :: cid.data = (u.data ++ ['_']) ++ cid.data := by simp
  rw [this]
  exact List.prefix_append _ _

theorem configKey_inj {u v a b : String} (hu : noUnd u) (hv : noUnd v)
    (h : configKey u a = configKey v b) : u = v ∧ a = b := by
  have hd : (configKey u a).data = (configKey v b).data := by rw [h]
  rw [configKey_data, configKey_data] at hd
  have hd2 := List.append_cancel_left hd
  obtain ⟨h1, h2⟩ := sep_append_inj hu hv hd2
  exact ⟨String.ext h1, String.ext h2⟩

/-! ## Facts about `upsert` -/

theorem upsert_append_of_not_mem {P : List S3Config} {c : S3Config} (Q : List S3Config)
    (h : c.id ∉ P.map (fun x => x.id)) : upsert (P ++ Q) c = P ++ upsert Q c := by
  induction P with
  | nil => rfl
  | cons x xs ih =>
    simp only [List.map_cons, List.mem_cons, not_or] at h
    have hne : ¬ x.id = c.id := fun hx => h.1 hx.symm
    show (if x.id = c.id then c :: (xs ++ Q) else x :: upsert (xs ++ Q) c)
        = x :: (xs ++ upsert Q c)
    rw [if_neg hne, ih h.2]

theorem upsert_of_not_mem {L : List S3Config} {c : S3Config}
    (h : c.id ∉ L.map (fun x => x.id)) : upsert L c = L ++ [c] := by
  have := upsert_append_of_not_mem (P := L) (Q := []) h
  simpa using this

theorem upsert_replace {P R : List S3Config} {e c : S3Config} (he : e.id = c.id)
    (hP : c.id ∉ P.map (fun x => x.id)) : upsert (P ++ e :: R) c = P ++ c :: R := by
  rw [upsert_append_of_not_mem _ hP]
  simp [upsert, he]

theorem upsert_length_of_mem {L : List S3Config} {c : S3Config}
    (h : c.id ∈ L.map (fun x => x.id)) : (upsert L c).length = L.length := by
  induction L with
  | nil => simp at h
  | cons x xs ih =>
    by_cases hx : x.id = c.id
    · simp [upsert, hx]
    · simp only [List.map_cons, List.mem_cons] at h
      have : c.id ∈ xs.map (fun x => x.id) := h.resolve_left (fun hh => hx hh.symm)
      simp [upsert, hx, ih this]

theorem countP_upsert_all_false {L : List S3Config} {c : S3Config}
    (hL : ∀ x ∈ L, x.isDefault = false) (hc : c.isDefault = true) :
    (upsert L c).countP (fun x => x.isDefault) = 1 := by
  induction L with
  | nil => simp [upsert, List.countP_cons, hc]
  | cons x xs ih =>
    have hx : x.isDefault = false := hL x (List.mem_cons_self x xs)
    have hxs : ∀ y ∈ xs, y.isDefault = false := fun y hy => hL y (List.mem_cons_of_mem x hy)
    by_cases hid : x.id = c.id
    · have hz : xs.countP (fun x => x.isDefault) = 0 :=
        List.countP_eq_zero.mpr (by intro y hy; simp [hxs y hy])
      simp [upsert, hid, List.countP_cons, hc, hz]
    · simp [upsert, hid, List.countP_cons, hx, ih hxs]

/-! ## Facts about the store primitives under well-formedness -/

theorem Good.tail {kv : String × S3Config} {db : DB} (h : Good (kv :: db)) : Good db := by
  refine ⟨fun x hx => h.wk x (List.mem_cons_of_mem kv hx), ?_,
    fun x hx => h.uf x (List.mem_cons_of_mem kv hx)⟩
  have := h.nd
  simp only [List.map_cons, List.nodup_cons] at this
  exact this.2

theorem getUserConfigs_cons (kv : String × S3Config) (db : DB) (u : String) :
    getUserConfigs (kv :: db) u =
      if strHasPre kv.1 (userKeyPre u) then kv.2 :: getUserConfigs db u
      else getUserConfigs db u := by
  by_cases h : strHasPre kv.1 (userKeyPre u) <;>
    simp [getUserConfigs, List.filter_cons, h]

theorem mem_getUserConfigs {db : DB} {u : String} {c : S3Config} (hG : Good db)
    (hu : noUnd u) (hc : c ∈ getUserConfigs db u) :
    c.userID = u ∧ (configKey u c.id, c) ∈ db := by
  simp only [getUserConfigs, List.mem_map, List.mem_filter] at hc
  obtain ⟨kv, ⟨hmem, hpre⟩, hsnd⟩ := hc
  have hwk := hG.wk kv hmem
  have huf := hG.uf kv hmem
  rw [hwk] at hpre
  have huv : u = kv.2.userID := (strHasPre_configKey kv.2.id hu huf).mp hpre
  constructor
  · rw [← hsnd, ← huv]
  · have h1 : configKey u c.id = kv.1 := by rw [hwk, ← huv, hsnd]
    have hkc : (configKey u c.id, c) = kv := by
      rw [Prod.ext_iff]
      exact ⟨h1, hsnd.symm⟩
    rw [hkc]
    exact hmem

theorem getUserConfigs_mem_of_entry {db : DB} {u : String} {c : S3Config}
    (hent : (configKey u c.id, c) ∈ db) : c ∈ getUserConfigs db u := by
  simp only [getUserConfigs, List.mem_map, List.mem_filter]
  exact ⟨(configKey u c.id, c), ⟨hent, strHasPre_configKey_self u c.id⟩, rfl⟩

theorem ids_nodup {u : String} (hu : noUnd u) :
    ∀ {db : DB}, Good db → ((getUserConfigs db u).map (fun c => c.id)).Nodup := by
  intro db
  induction db with
  | nil => intro _; simp [getUserConfigs]
  | cons kv rest ih =>
    intro hG
    rw [getUserConfigs_cons]
    by_cases hp : strHasPre kv.1 (userKeyPre u)
    · rw [if_pos hp]
      simp only [List.map_cons, List.nodup_cons]
      refine ⟨?_, ih hG.tail⟩
      intro hmem
      obtain ⟨c, hc, hcid⟩ := List.mem_map.mp hmem
      obtain ⟨hcu, hent⟩ := mem_getUserConfigs hG.tail hu hc
      have hkey : configKey u c.id ∈ rest.map (fun kv => kv.1) :=
        List.mem_map.mpr ⟨_, hent, rfl⟩
      have hwk := hG.wk kv (List.mem_cons_self kv rest)
      have huf := hG.uf kv (List.mem_cons_self kv rest)
      rw [hwk] at hp
      have huv : u = kv.2.userID := (strHasPre_configKey kv.2.id hu huf).mp hp
      have hnd := hG.nd
      simp only [List.map_cons, List.nodup_cons] at hnd
      apply hnd.1
      rw [hwk, ← huv, ← hcid]
      exact hkey
    · rw [if_neg hp]; exact ih hG.tail

theorem eq_of_mem_same_id {db : DB} {u : String} {x y : S3Config} (hG : Good db)
    (hu : noUnd u) (hx : x ∈ getUserConfigs db u) (hy : y ∈ getUserConfigs db u)
    (hid : x.id = y.id) : x = y :=
  List.inj_on_of_nodup_map (ids_nodup hu hG) hx hy hid

theorem dbGet_some_mem {db : DB} {k : String} {c : S3Config}
    (h : dbGet db k = some c) : (k, c) ∈ db := by
  simp only [dbGet, Option.map_eq_some'] at h
  obtain ⟨kv, hfind, hsnd⟩ := h
  have hmem := List.mem_of_find?_eq_some hfind
  have hpred := List.find?_some hfind
  have hk : kv.1 = k := by simpa using hpred
  have : (k, c) = kv := by
    rw [Prod.ext_iff]
    exact ⟨hk.symm, hsnd.symm⟩
  rw [this]
  exact hmem

theorem dbGet_config {db : DB} {u cid : String} {c : S3Config} (hG : Good db)
    (hu : noUnd u) (h : dbGet db (configKey u cid) = some c) :
    c.userID = u ∧ c.id = cid ∧ c ∈ getUserConfigs db u := by
  have hmem := dbGet_some_mem h
  have hwk : configKey u cid = configKey c.userID c.id := hG.wk _ hmem
  have huf : noUnd c.userID := hG.uf _ hmem
  obtain ⟨h1, h2⟩ := configKey_inj hu huf hwk
  refine ⟨h1.symm, h2.symm, ?_⟩
  apply getUserConfigs_mem_of_entry
  rw [← h2]
  exact hmem

/-! ## Effect of `saveConfig` and `deleteConfig` on per-user views -/

theorem stamped_id (c : S3Config) (now : String) : (stamped c now).id = c.id := rfl

theorem stamped_userID (c : S3Config) (now : String) :
    (stamped c now).userID = c.userID := rfl

theorem stamped_isDefault (c : S3Config) (now : String) :
    (stamped c now).isDefault = c.isDefault := rfl

theorem clearStamp_id (now : String) (c : S3Config) : (clearStamp now c).id = c.id := by
  by_cases h : c.isDefault <;> simp [clearStamp, h, stamped]

theorem clearStamp_isDefault (now : String) (c : S3Config) :
    (clearStamp now c).isDefault = false := by
  by_cases h : c.isDefault <;> simp [clearStamp, h, stamped]

theorem saveConfig_eq (db : DB) (c : S3Config) (now : String) :
    saveConfig db c now = dbSet db (configKey c.userID c.id) (stamped c now) := rfl

theorem dbSet_cons (kv : String × S3Config) (rest : DB) (key : String) (c : S3Config) :
    dbSet (kv :: rest) key c =
      if kv.1 = key then (key, c) :: rest else kv :: dbSet rest key c := rfl

theorem mem_keys_dbSet {key : String} {c : S3Config} :
    ∀ {db : DB} {k : String}, k ∈ (dbSet db key c).map (fun kv => kv.1) →
      k = key ∨ k ∈ db.map (fun kv => kv.1) := by
  intro db
  induction db with
  | nil =>
    intro k hk
    simp only [dbSet, List.map_cons, List.map_nil, List.mem_singleton] at hk
    exact Or.inl hk
  | cons kv rest ih =>
    intro k hk
    rw [dbSet_cons] at hk
    by_cases h : kv.1 = key
    · rw [if_pos h] at hk
      simp only [List.map_cons, List.mem_cons] at hk
      rcases hk with hk | hk
      · exact Or.inl hk
      · exact Or.inr (by simp only [List.map_cons, List.mem_cons]; exact Or.inr hk)
    · rw [if_neg h] at hk
      simp only [List.map_cons, List.mem_cons] at hk
      rcases hk with hk | hk
      · exact Or.inr (by simp only [List.map_cons, List.mem_cons]; exact Or.inl hk)
      · rcases ih hk with hk2 | hk2
        · exact Or.inl hk2
        · exact Or.inr (by simp only [List.map_cons, List.mem_cons]; exact Or.inr hk2)

theorem good_dbSet {c : S3Config} (hu : noUnd c.userID) :
    ∀ {db : DB}, Good db → Good (dbSet db (configKey c.userID c.id) c) := by
  intro db
  induction db with
  | nil =>
    intro _
    refine ⟨?_, by simp [dbSet], ?_⟩
    · intro kv hkv
      simp only [dbSet, List.mem_singleton] at hkv
      rw [hkv]
    · intro kv hkv
      simp only [dbSet, List.mem_singleton] at hkv
      rw [hkv]
      exact hu
  | cons kv rest ih =>
    intro hG
    rw [dbSet_cons]
    by_cases h : kv.1 = configKey c.userID c.id
    · rw [if_pos h]
      have hnd := hG.nd
      simp only [List.map_cons, List.nodup_cons] at hnd
      refine ⟨?_, ?_, ?_⟩
      · intro x hx
        rcases List.mem_cons.mp hx with hx | hx
        · rw [hx]
        · exact hG.wk x (List.mem_cons_of_mem kv hx)
      · simp only [List.map_cons, List.nodup_cons]
        exact ⟨by rw [← h]; exact hnd.1, hnd.2⟩
      · intro x hx
        rcases List.mem_cons.mp hx with hx | hx
        · rw [hx]; exact hu
        · exact hG.uf x (List.mem_cons_of_mem kv hx)
    · rw [if_neg h]
      have hrest := ih hG.tail
      have hnd := hG.nd
      simp only [List.map_cons, List.nodup_cons] at hnd
      refine ⟨?_, ?_, ?_⟩
      · intro x hx
        rcases List.mem_cons.mp hx with hx | hx
        · rw [hx]; exact hG.wk kv (List.mem_cons_self kv rest)
        · exact hrest.wk x hx
      · simp only [List.map_cons, List.nodup_cons]
        refine ⟨?_, hrest.nd⟩
        intro hk
        rcases mem_keys_dbSet hk with hk2 | hk2
        · exact h hk2
        · exact hnd.1 hk2
      · intro x hx
        rcases List.mem_cons.mp hx with hx | hx
        · rw [hx]; exact hG.uf kv (List.mem_cons_self kv rest)
        · exact hrest.uf x hx

theorem getUserConfigs_dbSet_self {c : S3Config} (hu : noUnd c.userID) :
    ∀ {db : DB}, Good db →
      getUserConfigs (dbSet db (configKey c.userID c.id) c) c.userID
        = upsert (getUserConfigs db c.userID) c := by
  intro db
  induction db with
  | nil =>
    intro _
    show getUserConfigs [(configKey c.userID c.id, c)] c.userID = upsert [] c
    rw [getUserConfigs_cons]
    simp [strHasPre_configKey_self, getUserConfigs, upsert]
  | cons kv rest ih =>
    intro hG
    rw [dbSet_cons]
    have hwk := hG.wk kv (List.mem_cons_self kv rest)
    have huf := hG.uf kv (List.mem_cons_self kv rest)
    by_cases h : kv.1 = configKey c.userID c.id
    · rw [if_pos h]
      have hid : kv.2.userID = c.userID ∧ kv.2.id = c.id := by
        have := configKey_inj huf hu (hwk.symm.trans h)
        exact this
      rw [getUserConfigs_cons, getUserConfigs_cons,
        if_pos (strHasPre_configKey_self c.userID c.id)]
      rw [hwk, if_pos ((strHasPre_configKey kv.2.id hu huf).mpr hid.1.symm)]
      show c :: getUserConfigs rest c.userID
        = upsert (kv.2 :: getUserConfigs rest c.userID) c
      rw [upsert, if_pos hid.2]
    · rw [if_neg h]
      rw [getUserConfigs_cons, getUserConfigs_cons]
      by_cases hp : strHasPre kv.1 (userKeyPre c.userID)
      · rw [if_pos hp, if_pos hp]
        have huv : c.userID = kv.2.userID := by
          rw [hwk] at hp
          exact (strHasPre_configKey kv.2.id hu huf).mp hp
        have hne : ¬ kv.2.id = c.id := by
          intro hid
          apply h
          rw [hwk, ← huv, hid]
        rw [ih hG.tail]
        show kv.2 :: upsert (getUserConfigs rest c.userID) c
          = upsert (kv.2 :: getUserConfigs rest c.userID) c
        rw [upsert, if_neg hne]
      · rw [if_neg hp, if_neg hp]
        exact ih hG.tail

theorem getUserConfigs_dbSet_other {c : S3Config} {v : String} (hu : noUnd c.userID)
    (hv : noUnd v) (hne : v ≠ c.userID) :
    ∀ {db : DB}, Good db →
      getUserConfigs (dbSet db (configKey c.userID c.id) c) v = getUserConfigs db v := by
  intro db
  induction db with
  | nil =>
    intro _
    show getUserConfigs [(configKey c.userID c.id, c)] v = getUserConfigs [] v
    rw [getUserConfigs_cons]
    have : ¬ strHasPre (configKey c.userID c.id) (userKeyPre v) = true := by
      rw [strHasPre_configKey c.id hv hu]
      exact hne
    simp only [Bool.not_eq_true] at this
    rw [this]
    simp
  | cons kv rest ih =>
    intro hG
    rw [dbSet_cons]
    by_cases h : kv.1 = configKey c.userID c.id
    · rw [if_pos h]
      rw [getUserConfigs_cons, getUserConfigs_cons]
      have hp : ¬ strHasPre (configKey c.userID c.id) (userKeyPre v) = true := by
        rw [strHasPre_configKey c.id hv hu]
        exact hne
      simp only [Bool.not_eq_true] at hp
      rw [hp, h, hp]
      simp
    · rw [if_neg h]
      rw [getUserConfigs_cons, getUserConfigs_cons, ih hG.tail]

theorem good_dbDelete {db : DB} {k : String} (hG : Good db) : Good (dbDelete db k) := by
  refine ⟨?_, ?_, ?_⟩
  · intro kv hkv
    exact hG.wk kv (List.mem_of_mem_filter hkv)
  · have hsub : (dbDelete db k).map (fun kv => kv.1) |>.Sublist (db.map (fun kv => kv.1)) :=
      (List.filter_sublist db).map (fun kv => kv.1)
    exact hG.nd.sublist hsub
  · intro kv hkv
    exact hG.uf kv (List.mem_of_mem_filter hkv)

theorem dbDelete_cons (kv : String × S3Config) (rest : DB) (k : String) :
    dbDelete (kv :: rest) k =
      if kv.1 = k then dbDelete rest k else kv :: dbDelete rest k := by
  by_cases h : kv.1 = k <;> simp [dbDelete, List.filter_cons, h]

theorem getUserConfigs_dbDelete_self {u cid : String} (hu : noUnd u) :
    ∀ {db : DB}, Good db →
      getUserConfigs (dbDelete db (configKey u cid)) u
        = (getUserConfigs db u).filter (fun c => !(c.id == cid)) := by
  intro db
  induction db with
  | nil => intro _; simp [dbDelete, getUserConfigs]
  | cons kv rest ih =>
    intro hG
    have hwk := hG.wk kv (List.mem_cons_self kv rest)
    have huf := hG.uf kv (List.mem_cons_self kv rest)
    rw [dbDelete_cons, getUserConfigs_cons]
    by_cases h : kv.1 = configKey u cid
    · rw [if_pos h]
      have hid : kv.2.userID = u ∧ kv.2.id = cid := by
        have := configKey_inj huf hu (hwk.symm.trans h)
        exact ⟨this.1, this.2⟩
      have hp : strHasPre kv.1 (userKeyPre u) = true := by
        rw [hwk]
        exact (strHasPre_configKey kv.2.id hu huf).mpr hid.1.symm
      rw [if_pos hp, List.filter_cons, if_neg (by simp [hid.2])]
      exact ih hG.tail
    · rw [if_neg h, getUserConfigs_cons]
      by_cases hp : strHasPre kv.1 (userKeyPre u)
      · rw [if_pos hp, if_pos hp]
        have huv : u = kv.2.userID := by
          rw [hwk] at hp
          exact (strHasPre_configKey kv.2.id hu huf).mp hp
        have hne : ¬ kv.2.id = cid := by
          intro hid
          apply h
          rw [hwk, ← huv, hid]
        rw [List.filter_cons, if_pos (by simp [hne])]
        rw [ih hG.tail]
      · rw [if_neg hp, if_neg hp]
        exact ih hG.tail

theorem getUserConfigs_dbDelete_other {u cid v : String} (hu : noUnd u) (hv : noUnd v)
    (hne : v ≠ u) :
    ∀ {db : DB}, Good db →
      getUserConfigs (dbDelete db (configKey u cid)) v = getUserConfigs db v := by
  intro db
  induction db with
  | nil => intro _; simp [dbDelete]
  | cons kv rest ih =>
    intro hG
    rw [dbDelete_cons, getUserConfigs_cons]
    by_cases h : kv.1 = configKey u cid
    · rw [if_pos h]
      have hp : ¬ strHasPre (configKey u cid) (userKeyPre v) = true := by
        rw [strHasPre_configKey cid hv hu]
        exact hne
      simp only [Bool.not_eq_true] at hp
      rw [h, hp]
      exact ih hG.tail
    · rw [if_neg h, getUserConfigs_cons, ih hG.tail]

/-! ## Effect of the handler-level operations on per-user views -/

theorem good_saveConfig {db : DB} {c : S3Config} {now : String} (hG : Good db)
    (hu : noUnd c.userID) : Good (saveConfig db c now) := by
  rw [saveConfig_eq]
  exact good_dbSet (c := stamped c now) hu hG

theorem getUserConfigs_save_self {db : DB} {c : S3Config} {now : String} (hG : Good db)
    (hu : noUnd c.userID) :
    getUserConfigs (saveConfig db c now) c.userID
      = upsert (getUserConfigs db c.userID) (stamped c now) := by
  rw [saveConfig_eq]
  exact getUserConfigs_dbSet_self (c := stamped c now) hu hG

theorem getUserConfigs_save_other {db : DB} {c : S3Config} {now : String} {v : String}
    (hG : Good db) (hu : noUnd c.userID) (hv : noUnd v) (hne : v ≠ c.userID) :
    getUserConfigs (saveConfig db c now) v = getUserConfigs db v := by
  rw [saveConfig_eq]
  exact getUserConfigs_dbSet_other (c := stamped c now) hu hv hne hG

theorem countP_filter_of_imp {α : Type} {p q : α → Bool} {L : List α}
    (h : ∀ x ∈ L, p x = true → q x = true) :
    (L.filter q).countP p = L.countP p := by
  induction L with
  | nil => rfl
  | cons a l ih =>
    have hl : ∀ x ∈ l, p x = true → q x = true :=
      fun x hx => h x (List.mem_cons_of_mem a hx)
    by_cases hq : q a = true
    · by_cases hp : p a = true <;>
        simp [List.filter_cons, List.countP_cons, hq, hp, ih hl]
    · have hp : ¬ p a = true := fun hp => hq (h a (List.mem_cons_self a l) hp)
      simp [List.filter_cons, List.countP_cons, hq, hp, ih hl]

theorem upsert_ne_nil (L : List S3Config) (c : S3Config) : upsert L c ≠ [] := by
  cases L with
  | nil => simp [upsert]
  | cons x xs => by_cases h : x.id = c.id <;> simp [upsert, h]

theorem dbGet_dbSet_self {k : String} {c : S3Config} :
    ∀ db : DB, dbGet (dbSet db k c) k = some c := by
  intro db
  induction db with
  | nil => simp [dbSet, dbGet, List.find?]
  | cons kv rest ih =>
    rw [dbSet_cons]
    by_cases h : kv.1 = k
    · rw [if_pos h]
      simp [dbGet, List.find?]
    · rw [if_neg h]
      simp only [dbGet, List.find?_cons]
      have : (kv.1 == k) = false := by simp [h]
      rw [this]
      exact ih

/-! ## Effect of `setDefaultConfig` -/

theorem good_save_at {db : DB} {c : S3Config} {now u : String} (hG : Good db)
    (hcu : c.userID = u) (hu : noUnd u) : Good (saveConfig db c now) :=
  good_saveConfig hG (by rw [hcu]; exact hu)

theorem save_self_at {db : DB} {c : S3Config} {now u : String} (hG : Good db)
    (hcu : c.userID = u) (hu : noUnd u) :
    getUserConfigs (saveConfig db c now) u = upsert (getUserConfigs db u) (stamped c now) := by
  subst hcu
  exact getUserConfigs_save_self hG hu

theorem save_other_at {db : DB} {c : S3Config} {now u v : String} (hG : Good db)
    (hcu : c.userID = u) (hu : noUnd u) (hv : noUnd v) (hne : v ≠ u) :
    getUserConfigs (saveConfig db c now) v = getUserConfigs db v := by
  subst hcu
  exact getUserConfigs_save_other hG hu hv hne

theorem clear_fold {u now : String} (hu : noUnd u) :
    ∀ (R : List S3Config) (db : DB) (P : List S3Config), Good db →
      (∀ c ∈ R, c.userID = u) →
      getUserConfigs db u = P ++ R →
      ((P ++ R).map (fun c => c.id)).Nodup →
      getUserConfigs
          (R.foldl (fun d c =>
            if c.isDefault then saveConfig d { c with isDefault := false } now else d) db) u
        = P ++ R.map (clearStamp now)
      ∧ Good (R.foldl (fun d c =>
            if c.isDefault then saveConfig d { c with isDefault := false } now else d) db) := by
  intro R
  induction R with
  | nil =>
    intro db P hG hmem hview hnd
    refine ⟨?_, hG⟩
    rw [List.foldl_nil, hview]
    simp
  | cons c R ih =>
    intro db P hG hmem hview hnd
    have hcu : c.userID = u := hmem c (List.mem_cons_self c R)
    have hmemR : ∀ x ∈ R, x.userID = u := fun x hx => hmem x (List.mem_cons_of_mem c hx)
    have hidsP : c.id ∉ P.map (fun x => x.id) := by
      have h1 : ((P.map fun x => x.id) ++ c.id :: R.map (fun x => x.id)).Nodup := by
        simpa using hnd
      rw [List.nodup_middle, List.nodup_cons] at h1
      intro hmemP
      exact h1.1 (List.mem_append_left _ hmemP)
    simp only [List.foldl_cons]
    by_cases hc : c.isDefault
    · rw [if_pos hc]
      have hG2 : Good (saveConfig db { c with isDefault := false } now) :=
        good_save_at hG hcu hu
      have hview2 : getUserConfigs (saveConfig db { c with isDefault := false } now) u
          = P ++ stamped { c with isDefault := false } now :: R := by
        rw [save_self_at (c := { c with isDefault := false }) hG hcu hu, hview]
        exact upsert_replace rfl hidsP
      have hnd2 : (((P ++ [stamped { c with isDefault := false } now]) ++ R).map
          (fun x => x.id)).Nodup := by
        have heq : ((P ++ [stamped { c with isDefault := false } now]) ++ R).map
            (fun x => x.id) = (P ++ c :: R).map (fun x => x.id) := by
          simp [stamped]
        rw [heq]
        exact hnd
      have hview2b : getUserConfigs (saveConfig db { c with isDefault := false } now) u
          = (P ++ [stamped { c with isDefault := false } now]) ++ R := by
        rw [hview2]; simp
      obtain ⟨h1, h2⟩ := ih (saveConfig db { c with isDefault := false } now)
        (P ++ [stamped { c with isDefault := false } now]) hG2 hmemR hview2b hnd2
      refine ⟨?_, h2⟩
      rw [h1]
      have hcs : clearStamp now c = stamped { c with isDefault := false } now := by
        simp [clearStamp, hc]
      simp [hcs]
    · rw [if_neg hc]
      have hview2 : getUserConfigs db u = (P ++ [c]) ++ R := by rw [hview]; simp
      have hnd2 : (((P ++ [c]) ++ R).map (fun x => x.id)).Nodup := by
        have heq : ((P ++ [c]) ++ R).map (fun x => x.id)
            = (P ++ c :: R).map (fun x => x.id) := by
          simp
        rw [heq]
        exact hnd
      obtain ⟨h1, h2⟩ := ih db (P ++ [c]) hG hmemR hview2 hnd2
      refine ⟨?_, h2⟩
      rw [h1]
      have hcs : clearStamp now c = c := by simp [clearStamp, hc]
      simp [hcs]

theorem clear_fold_other {u now v : String} (hu : noUnd u) (hv : noUnd v) (hne : v ≠ u) :
    ∀ (R : List S3Config) (db : DB), Good db →
      (∀ c ∈ R, c.userID = u) →
      getUserConfigs
          (R.foldl (fun d c =>
            if c.isDefault then saveConfig d { c with isDefault := false } now else d) db) v
        = getUserConfigs db v
      ∧ Good (R.foldl (fun d c =>
            if c.isDefault then saveConfig d { c with isDefault := false } now else d) db) := by
  intro R
  induction R with
  | nil => intro db hG _; exact ⟨rfl, hG⟩
  | cons c R ih =>
    intro db hG hmem
    have hcu : c.userID = u := hmem c (List.mem_cons_self c R)
    have hmemR : ∀ x ∈ R, x.userID = u := fun x hx => hmem x (List.mem_cons_of_mem c hx)
    simp only [List.foldl_cons]
    by_cases hc : c.isDefault
    · rw [if_pos hc]
      have hG2 : Good (saveConfig db { c with isDefault := false } now) :=
        good_save_at hG hcu hu
      obtain ⟨h1, h2⟩ := ih (saveConfig db { c with isDefault := false } now) hG2 hmemR
      refine ⟨?_, h2⟩
      rw [h1]
      exact save_other_at hG hcu hu hv hne
    · rw [if_neg hc]
      exact ih db hG hmemR

theorem setDefault_view {db : DB} {u : String} (cid now : String) (hG : Good db) (hu : noUnd u) :
    getUserConfigs (setDefaultConfig db u cid now) u
      = (match (getUserConfigs db u).find? (fun c => c.id == cid) with
         | some c => upsert ((getUserConfigs db u).map (clearStamp now))
             (stamped { c with isDefault := true } now)
         | none => (getUserConfigs db u).map (clearStamp now))
    ∧ Good (setDefaultConfig db u cid now) := by
  have hmem : ∀ c ∈ getUserConfigs db u, c.userID = u :=
    fun c hc => (mem_getUserConfigs hG hu hc).1
  have hnd : ((([] : List S3Config) ++ getUserConfigs db u).map (fun c => c.id)).Nodup := by
    simpa using ids_nodup hu hG
  obtain ⟨hfold, hGfold⟩ := clear_fold hu (getUserConfigs db u) db [] hG hmem (by simp) hnd
  rw [List.nil_append] at hfold
  unfold setDefaultConfig
  cases hfind : (getUserConfigs db u).find? (fun c => c.id == cid) with
  | none =>
    simp only [hfind]
    exact ⟨hfold, hGfold⟩
  | some c =>
    simp only [hfind]
    have hcmem : c ∈ getUserConfigs db u := List.mem_of_find?_eq_some hfind
    have hcu : c.userID = u := hmem c hcmem
    constructor
    · rw [save_self_at (c := { c with isDefault := true }) hGfold hcu hu, hfold]
    · exact good_save_at hGfold hcu hu

theorem setDefault_other {db : DB} {u cid now v : String} (hG : Good db) (hu : noUnd u)
    (hv : noUnd v) (hne : v ≠ u) :
    getUserConfigs (setDefaultConfig db u cid now) v = getUserConfigs db v := by
  have hmem : ∀ c ∈ getUserConfigs db u, c.userID = u :=
    fun c hc => (mem_getUserConfigs hG hu hc).1
  obtain ⟨hfold, hGfold⟩ := clear_fold_other hu hv hne (getUserConfigs db u) db hG hmem
  unfold setDefaultConfig
  cases hfind : (getUserConfigs db u).find? (fun c => c.id == cid) with
  | none =>
    simp only [hfind]
    exact hfold
  | some c =>
    simp only [hfind]
    have hcmem : c ∈ getUserConfigs db u := List.mem_of_find?_eq_some hfind
    have hcu : c.userID = u := hmem c hcmem
    rw [save_other_at (c := { c with isDefault := true }) hGfold hcu hu hv hne]
    exact hfold

theorem find_ne_isSome {L : List S3Config} (cid : String)
    (hlen : 2 ≤ L.length) (hnd : (L.map (fun c => c.id)).Nodup) :
    ∃ cfg, L.find? (fun c => !(c.id == cid)) = some cfg ∧ cfg ∈ L ∧ ¬ cfg.id = cid := by
  have hex : ∃ c ∈ L, (!(c.id == cid)) = true := by
    match L, hlen, hnd with
    | a :: b :: rest, _, hnd =>
      by_cases ha : a.id = cid
      · by_cases hb : b.id = cid
        · exfalso
          simp only [List.map_cons, List.nodup_cons] at hnd
          exact hnd.1 (by rw [ha, ← hb]; exact List.mem_cons_self _ _)
        · exact ⟨b, List.mem_cons_of_mem a (List.mem_cons_self b rest), by simp [hb]⟩
      · exact ⟨a, List.mem_cons_self a (b :: rest), by simp [ha]⟩
  have hsome : (L.find? (fun c => !(c.id == cid))).isSome := List.find?_isSome.mpr hex
  obtain ⟨cfg, hfind⟩ := Option.isSome_iff_exists.mp hsome
  refine ⟨cfg, hfind, List.mem_of_find?_eq_some hfind, ?_⟩
  have := List.find?_some hfind
  simpa using this

theorem countP_upsert_same {L : List S3Config} {c e : S3Config}
    (hnd : (L.map (fun x => x.id)).Nodup) (he : e ∈ L) (hid : c.id = e.id)
    (hdef : c.isDefault = e.isDefault) :
    (upsert L c).countP (fun x => x.isDefault) = L.countP (fun x => x.isDefault)
    ∧ (upsert L c).length = L.length := by
  obtain ⟨P, R, hPR⟩ := List.append_of_mem he
  subst hPR
  have hP : c.id ∉ P.map (fun x => x.id) := by
    have h1 : ((P.map fun x => x.id) ++ e.id :: R.map (fun x => x.id)).Nodup := by
      simpa using hnd
    rw [List.nodup_middle, List.nodup_cons] at h1
    intro hmemP
    rw [hid] at hmemP
    exact h1.1 (List.mem_append_left _ hmemP)
  rw [upsert_replace hid.symm hP]
  constructor
  · simp [List.countP_append, List.countP_cons, hdef]
  · simp

theorem fresh_id_not_mem {db : DB} {u newID : String} (hG : Good db) (hu : noUnd u)
    (hfresh : configKey u newID ∉ db.map (fun kv => kv.1)) :
    newID ∉ (getUserConfigs db u).map (fun c => c.id) := by
  intro hmem
  obtain ⟨c, hc, hcid⟩ := List.mem_map.mp hmem
  obtain ⟨_, hent⟩ := mem_getUserConfigs hG hu hc
  apply hfresh
  rw [← hcid]
  exact List.mem_map.mpr ⟨_, hent, rfl⟩

theorem setDefault_count {db : DB} {u cid now : String} (hG : Good db) (hu : noUnd u)
    (hex : ∃ c ∈ getUserConfigs db u, c.id = cid) :
    (getUserConfigs (setDefaultConfig db u cid now) u).countP (fun c => c.isDefault) = 1
    ∧ getUserConfigs (setDefaultConfig db u cid now) u ≠ [] := by
  obtain ⟨hview, _⟩ := setDefault_view cid now hG hu
  have hfindsome : ((getUserConfigs db u).find? (fun c => c.id == cid)).isSome := by
    rw [List.find?_isSome]
    obtain ⟨c, hc, hcid⟩ := hex
    exact ⟨c, hc, by simp [hcid]⟩
  obtain ⟨c, hfind⟩ := Option.isSome_iff_exists.mp hfindsome
  rw [hfind] at hview
  have hallfalse : ∀ x ∈ (getUserConfigs db u).map (clearStamp now), x.isDefault = false := by
    intro x hx
    obtain ⟨y, _, hy⟩ := List.mem_map.mp hx
    rw [← hy]
    exact clearStamp_isDefault now y
  constructor
  · rw [hview]
    exact countP_upsert_all_false hallfalse rfl
  · rw [hview]
    exact upsert_ne_nil _ _

/-! ## The registry handlers preserve well-formedness and the amended
single-default invariant -/

theorem create_preserves {db : DB} {u : String} {draft : S3Config} {newID now : String}
    {ok : Bool} (hG : Good db) (hInv : DefaultInv db) (hu : noUnd u)
    (hdraft : draft.isDefault = false)
    (hfresh : configKey u newID ∉ db.map (fun kv => kv.1)) :
    Good (CreateConfig db u draft newID now ok).1
    ∧ DefaultInv (CreateConfig db u draft newID now ok).1 := by
  cases ok with
  | false => exact ⟨hG, hInv⟩
  | true =>
    by_cases hlen : (getUserConfigs db u).length = 0
    · have hres : (CreateConfig db u draft newID now true).1
          = saveConfig db { draft with id := newID, userID := u, isDefault := true } now := by
        simp [CreateConfig, hlen]
      rw [hres]
      have hcu : ({ draft with id := newID, userID := u, isDefault := true } : S3Config).userID
          = u := rfl
      refine ⟨good_save_at hG hcu hu, ?_⟩
      intro w hw hpos
      by_cases hwu : w = u
      · subst hwu
        rw [save_self_at hG hcu hw]
        rw [List.length_eq_zero.mp hlen]
        simp [upsert, List.countP_cons, stamped]
      · rw [save_other_at hG hcu hu hw hwu] at hpos ⊢
        exact hInv w hw hpos
    · have hres : (CreateConfig db u draft newID now true).1
          = saveConfig db { draft with id := newID, userID := u } now := by
        simp [CreateConfig, hlen]
      rw [hres]
      have hcu : ({ draft with id := newID, userID := u } : S3Config).userID = u := rfl
      refine ⟨good_save_at hG hcu hu, ?_⟩
      intro w hw hpos
      by_cases hwu : w = u
      · subst hwu
        rw [save_self_at hG hcu hw] at hpos ⊢
        have hnotmem : (stamped { draft with id := newID, userID := w } now).id
            ∉ (getUserConfigs db w).map (fun c => c.id) := fresh_id_not_mem hG hw hfresh
        rw [upsert_of_not_mem hnotmem] at hpos ⊢
        rw [List.countP_append]
        have hdef : (stamped { draft with id := newID, userID := w } now).isDefault
            = false := hdraft
        simp only [List.countP_cons, List.countP_nil, hdef, Bool.false_eq_true, if_false,
          Nat.add_zero]
        exact hInv w hw (Nat.pos_of_ne_zero hlen)
      · rw [save_other_at hG hcu hu hw hwu] at hpos ⊢
        exact hInv w hw hpos

theorem setDefault_preserves {db : DB} {u cid now : String} (hG : Good db)
    (hInv : DefaultInv db) (hu : noUnd u)
    (hex : ∃ c ∈ getUserConfigs db u, c.id = cid) :
    Good (setDefaultConfig db u cid now) ∧ DefaultInv (setDefaultConfig db u cid now) := by
  refine ⟨(setDefault_view cid now hG hu).2, ?_⟩
  intro w hw hpos
  by_cases hwu : w = u
  · subst hwu
    exact (setDefault_count hG hw hex).1
  · rw [setDefault_other hG hu hw hwu] at hpos ⊢
    exact hInv w hw hpos

theorem delete_preserves {db : DB} {u cid now : String} (hG : Good db)
    (hInv : DefaultInv db) (hu : noUnd u) :
    Good (DeleteConfig db u cid now).1 ∧ DefaultInv (DeleteConfig db u cid now).1 := by
  by_cases hlen : (getUserConfigs db u).length ≤ 1
  · have hres : (DeleteConfig db u cid now).1 = db := by simp [DeleteConfig, hlen]
    rw [hres]
    exact ⟨hG, hInv⟩
  · have hlen2 : 2 ≤ (getUserConfigs db u).length := by omega
    have hGT : (getUserConfigs db u).length > 1 := by omega
    have hG1 : Good (deleteConfig db u cid) := good_dbDelete hG
    have hview1 : getUserConfigs (deleteConfig db u cid) u
        = (getUserConfigs db u).filter (fun c => !(c.id == cid)) :=
      getUserConfigs_dbDelete_self hu hG
    by_cases hdwd : (getUserConfigs db u).any (fun c => c.id == cid && c.isDefault) = true
    · obtain ⟨cfg, hfind, hcfgmem, hcfgne⟩ :=
        find_ne_isSome cid hlen2 (ids_nodup hu hG)
      have hres : (DeleteConfig db u cid now).1
          = setDefaultConfig (deleteConfig db u cid) u cfg.id now := by
        simp [DeleteConfig, hlen, hdwd, hGT, hfind]
      rw [hres]
      have hex2 : ∃ c ∈ getUserConfigs (deleteConfig db u cid) u, c.id = cfg.id := by
        refine ⟨cfg, ?_, rfl⟩
        rw [hview1]
        exact List.mem_filter.mpr ⟨hcfgmem, by simp [hcfgne]⟩
      refine ⟨(setDefault_view cfg.id now hG1 hu).2, ?_⟩
      intro w hw hpos
      by_cases hwu : w = u
      · subst hwu
        exact (setDefault_count hG1 hw hex2).1
      · have hvo : getUserConfigs (deleteConfig db u cid) w = getUserConfigs db w :=
          getUserConfigs_dbDelete_other hu hw hwu hG
        rw [setDefault_other hG1 hu hw hwu, hvo] at hpos ⊢
        exact hInv w hw hpos
    · have hres : (DeleteConfig db u cid now).1 = deleteConfig db u cid := by
        simp [DeleteConfig, hlen, hdwd]
      rw [hres]
      refine ⟨hG1, ?_⟩
      intro w hw hpos
      by_cases hwu : w = u
      · subst hwu
        rw [hview1] at hpos ⊢
        rw [countP_filter_of_imp ?_]
        · exact hInv w hw (by omega)
        · intro x hx hpx
          by_cases hxc : x.id = cid
          · exact absurd (List.any_eq_true.mpr ⟨x, hx, by simp [hxc, hpx]⟩) hdwd
          · simp [hxc]
      · have hvo : getUserConfigs (deleteConfig db u cid) w = getUserConfigs db w :=
          getUserConfigs_dbDelete_other hu hw hwu hG
        rw [hvo] at hpos ⊢
        exact hInv w hw hpos

theorem update_preserves {db : DB} {u cid : String} {patch : S3Config} {now now2 : String}
    {ok : Bool} (hG : Good db) (hInv : DefaultInv db) (hu : noUnd u) :
    Good (UpdateConfig db u cid patch now now2 ok).1
    ∧ DefaultInv (UpdateConfig db u cid patch now now2 ok).1 := by
  cases hget : getConfigByID db u cid with
  | none =>
    have hres : (UpdateConfig db u cid patch now now2 ok).1 = db := by
      simp [UpdateConfig, hget]
    rw [hres]
    exact ⟨hG, hInv⟩
  | some ex =>
    obtain ⟨hexu, hexid, hexmem⟩ := dbGet_config hG hu hget
    cases ok with
    | false =>
      have hres : (UpdateConfig db u cid patch now now2 false).1 = db := by
        simp [UpdateConfig, hget]
      rw [hres]
      exact ⟨hG, hInv⟩
    | true =>
      show GoodInv (UpdateConfig db u cid patch now now2 true).1
      have hmu : (mergedPatch patch ex).userID = u := hexu
      have hG1 : Good (saveConfig db (mergedPatch patch ex) now) := good_save_at hG hmu hu
      have hview1 : getUserConfigs (saveConfig db (mergedPatch patch ex) now) u
          = upsert (getUserConfigs db u) (stamped (mergedPatch patch ex) now) :=
        save_self_at hG hmu hu
      have hcount1 := countP_upsert_same (c := stamped (mergedPatch patch ex) now) (e := ex)
        (ids_nodup hu hG) hexmem rfl rfl
      rw [← hview1] at hcount1
      simp only [UpdateConfig, hget, Bool.not_true, Bool.false_eq_true, if_false]
      split
      next hget2 =>
        show GoodInv (saveConfig db (mergedPatch patch ex) now)
        refine ⟨hG1, ?_⟩
        intro w hw hpos
        by_cases hwu : w = u
        · subst hwu
          rw [hcount1.1]
          have hlpos : 0 < (getUserConfigs db w).length := by
            rw [← hcount1.2]
            exact hpos
          exact hInv w hw hlpos
        · rw [save_other_at hG hmu hu hw hwu] at hpos ⊢
          exact hInv w hw hpos
      next config hget2 =>
        have hget2m : getConfigByID (saveConfig db (mergedPatch patch ex) now) u cid
            = some config := hget2
        obtain ⟨hcu, hcid, hcmem⟩ := dbGet_config hG1 hu hget2m
        split
        next hlen1 =>
          show GoodInv (saveConfig db (mergedPatch patch ex) now)
          refine ⟨hG1, ?_⟩
          intro w hw hpos
          by_cases hwu : w = u
          · subst hwu
            rw [hcount1.1]
            have hlpos : 0 < (getUserConfigs db w).length := by
              rw [← hcount1.2]
              exact hpos
            exact hInv w hw hlpos
          · rw [save_other_at hG hmu hu hw hwu] at hpos ⊢
            exact hInv w hw hpos
        next hlen1 =>
          have hlen1m : ¬ (getUserConfigs (saveConfig db (mergedPatch patch ex) now) u).length
              ≤ 1 := hlen1
          have hlen2 : 2 ≤ (getUserConfigs (saveConfig db (mergedPatch patch ex) now) u).length := by
            omega
          have hG2 : Good (deleteConfig (saveConfig db (mergedPatch patch ex) now) u cid) :=
            good_dbDelete hG1
          have hview2 : getUserConfigs
                (deleteConfig (saveConfig db (mergedPatch patch ex) now) u cid) u
              = (getUserConfigs (saveConfig db (mergedPatch patch ex) now) u).filter
                  (fun c => !(c.id == cid)) :=
            getUserConfigs_dbDelete_self hu hG1
          split
          next hcond =>
            rw [Bool.and_eq_true] at hcond
            have hdef : config.isDefault = true := hcond.1
            split
            next cfg hfind =>
              have hfindm : (getUserConfigs (saveConfig db (mergedPatch patch ex) now) u).find?
                  (fun c => !(c.id == cid)) = some cfg := hfind
              have hcfgmem : cfg ∈ getUserConfigs (saveConfig db (mergedPatch patch ex) now) u :=
                List.mem_of_find?_eq_some hfindm
              have hcfgne : ¬ cfg.id = cid := by
                have := List.find?_some hfindm
                simpa using this
              show GoodInv (setDefaultConfig
                (deleteConfig (saveConfig db (mergedPatch patch ex) now) u cid) u cfg.id now2)
              have hex2 : ∃ c ∈ getUserConfigs
                  (deleteConfig (saveConfig db (mergedPatch patch ex) now) u cid) u,
                  c.id = cfg.id := by
                refine ⟨cfg, ?_, rfl⟩
                rw [hview2]
                exact List.mem_filter.mpr ⟨hcfgmem, by simp [hcfgne]⟩
              refine ⟨(setDefault_view cfg.id now2 hG2 hu).2, ?_⟩
              intro w hw hpos
              by_cases hwu : w = u
              · subst hwu
                exact (setDefault_count hG2 hw hex2).1
              · have hvo : getUserConfigs
                    (deleteConfig (saveConfig db (mergedPatch patch ex) now) u cid) w
                    = getUserConfigs (saveConfig db (mergedPatch patch ex) now) w :=
                  getUserConfigs_dbDelete_other hu hw hwu hG1
                rw [setDefault_other hG2 hu hw hwu, hvo,
                  save_other_at hG hmu hu hw hwu] at hpos ⊢
                exact hInv w hw hpos
            next hfind =>
              exfalso
              obtain ⟨cfg, hfindsome, _, _⟩ :=
                find_ne_isSome cid hlen2 (ids_nodup hu hG1)
              have hfindm : (getUserConfigs (saveConfig db (mergedPatch patch ex) now) u).find?
                  (fun c => !(c.id == cid)) = none := hfind
              rw [hfindm] at hfindsome
              exact Option.noConfusion hfindsome
          next hcond =>
            have hdef : config.isDefault = false := by
              by_contra hq
              apply hcond
              rw [Bool.and_eq_true]
              refine ⟨by simpa using hq, ?_⟩
              simp only [decide_eq_true_eq]
              omega
            show GoodInv (deleteConfig (saveConfig db (mergedPatch patch ex) now) u cid)
            refine ⟨hG2, ?_⟩
            intro w hw hpos
            by_cases hwu : w = u
            · subst hwu
              rw [hview2] at hpos ⊢
              rw [countP_filter_of_imp ?_]
              · rw [hcount1.1]
                have hlpos : 0 < (getUserConfigs db w).length := by
                  rw [← hcount1.2]
                  omega
                exact hInv w hw hlpos
              · intro x hx hpx
                by_cases hxc : x.id = cid
                · exfalso
                  have hxcfg : x = config :=
                    eq_of_mem_same_id hG1 hw hx hcmem (by rw [hxc, hcid])
                  rw [hxcfg] at hpx
                  rw [hdef] at hpx
                  exact Bool.noConfusion hpx
                · simp [hxc]
            · have hvo : getUserConfigs
                  (deleteConfig (saveConfig db (mergedPatch patch ex) now) u cid) w
                  = getUserConfigs (saveConfig db (mergedPatch patch ex) now) w :=
                getUserConfigs_dbDelete_other hu hw hwu hG1
              rw [hvo, save_other_at hG hmu hu hw hwu] at hpos ⊢
              exact hInv w hw hpos

theorem reach_goodInv : ∀ {db : DB}, Reach db → Good db ∧ DefaultInv db := by
  intro db h
  induction h with
  | empty =>
    refine ⟨⟨?_, by simp, ?_⟩, ?_⟩
    · intro kv hkv; cases hkv
    · intro kv hkv; cases hkv
    · intro u hu hpos; simp [getUserConfigs] at hpos
  | create db u draft newID now ok hr hu hd hf ih =>
    exact create_preserves ih.1 ih.2 hu hd hf
  | update db u cid patch now now2 ok hr hu ih =>
    exact update_preserves ih.1 ih.2 hu
  | setDefault db u cid now hr hu hex ih =>
    exact setDefault_preserves ih.1 ih.2 hu hex
  | delete db u cid now hr hu ih =>
    exact delete_preserves ih.1 ih.2 hu

/-! ## Traces of the multipart upload machine -/

theorem multipartLoop_trace (B : Backend) :
    ∀ (stream : List ReadRes) (pn : Nat) (tr : List MPEvent),
      ∃ t, (multipartLoop B stream pn tr).1 = tr ++ t
        ∧ MPEvent.putObject ∉ t ∧ MPEvent.initiate ∉ t := by
  intro stream
  induction stream with
  | nil =>
    intro pn tr
    by_cases hC : B.completeOk <;>
      exact ⟨[MPEvent.complete], by simp [multipartLoop, hC], by simp, by simp⟩
  | cons r rest ih =>
    intro pn tr
    cases r with
    | eof =>
      by_cases hC : B.completeOk <;>
        exact ⟨[MPEvent.complete], by simp [multipartLoop, hC], by simp, by simp⟩
    | readErr =>
      exact ⟨[], by simp [multipartLoop], by simp, by simp⟩
    | bytes n =>
      by_cases hp : B.partOk pn
      · obtain ⟨t, h1, h2, h3⟩ := ih (pn + 1) (tr ++ [MPEvent.uploadPart pn])
        refine ⟨MPEvent.uploadPart pn :: t, ?_, by simpa using h2, by simpa using h3⟩
        simp only [multipartLoop, hp, if_true]
        rw [h1]
        simp
      · exact ⟨[MPEvent.uploadPart pn, MPEvent.abort], by simp [multipartLoop, hp],
          by simp, by simp⟩
    | bytesEOF n =>
      by_cases hp : B.partOk pn
      · by_cases hC : B.completeOk <;>
          exact ⟨[MPEvent.uploadPart pn, MPEvent.complete],
            by simp [multipartLoop, hp, hC], by simp, by simp⟩
      · exact ⟨[MPEvent.uploadPart pn, MPEvent.abort], by simp [multipartLoop, hp],
          by simp, by simp⟩

theorem multipartUpload_trace (B : Backend) (stream : List ReadRes) :
    ∃ t, (multipartUpload B stream).1 = MPEvent.initiate :: t ∧ MPEvent.putObject ∉ t := by
  by_cases hI : B.initOk
  · obtain ⟨t, h1, h2, _⟩ := multipartLoop_trace B stream 1 [MPEvent.initiate]
    refine ⟨t, ?_, h2⟩
    simp only [multipartUpload, hI, if_true]
    rw [h1]
    simp
  · exact ⟨[], by simp [multipartUpload, hI], by simp⟩

theorem multipartLoop_abort_iff (B : Backend) :
    ∀ (stream : List ReadRes) (pn : Nat) (tr : List MPEvent), MPEvent.abort ∉ tr →
      (MPEvent.abort ∈ (multipartLoop B stream pn tr).1
        ↔ (multipartLoop B stream pn tr).2 = UploadOutcome.failedAt "upload_part") := by
  intro stream
  induction stream with
  | nil =>
    intro pn tr htr
    by_cases hC : B.completeOk <;> simp [multipartLoop, hC, htr]
  | cons r rest ih =>
    intro pn tr htr
    cases r with
    | eof => by_cases hC : B.completeOk <;> simp [multipartLoop, hC, htr]
    | readErr => simp [multipartLoop, htr]
    | bytes n =>
      by_cases hp : B.partOk pn
      · simp only [multipartLoop, hp, if_true]
        exact ih (pn + 1) (tr ++ [MPEvent.uploadPart pn]) (by simpa using htr)
      · simp [multipartLoop, hp]
    | bytesEOF n =>
      by_cases hp : B.partOk pn
      · by_cases hC : B.completeOk <;> simp [multipartLoop, hp, hC, htr]
      · simp [multipartLoop, hp]

/-! # Claim theorems -/

/-- C1, counterexample: the invariant fails exactly at the two spots the
claim singles out.  After alice's second create, whose draft carries
`isDefault = true` while she already has a default, she has two configs and
two defaults; and after `setDefaultConfig` with an id she does not have,
she has one config and zero defaults. -/
theorem c1_counterexample :
    ((getUserConfigs c1db2 "alice").length = 2
      ∧ (getUserConfigs c1db2 "alice").countP (fun c => c.isDefault) = 2)
    ∧ ((getUserConfigs c1db3 "alice").length = 1
      ∧ (getUserConfigs c1db3 "alice").countP (fun c => c.isDefault) = 0) := by
  decide

/-- C1, amended: for every store reachable from the empty store by registry
handler calls in which every create's draft carries `isDefault = false` and
a fresh id, every `setDefaultConfig` call targets an id the owner has, and
owner ids are underscore-free, each owner with at least one config has
exactly one config with `isDefault = true`, and an owner with no configs
has none. -/
theorem c1_single_default_invariant (db : DB) (h : Reach db) (u : String) (hu : noUnd u) :
    (getUserConfigs db u ≠ [] →
      (getUserConfigs db u).countP (fun c => c.isDefault) = 1)
    ∧ (getUserConfigs db u = [] →
      (getUserConfigs db u).countP (fun c => c.isDefault) = 0) := by
  obtain ⟨_, hInv⟩ := reach_goodInv h
  constructor
  · intro hne
    exact hInv u hu (List.length_pos.mpr hne)
  · intro hnil
    rw [hnil]
    rfl

/-- C1, witness: the amended theorem applied to the store reached by
alice's first create. -/
theorem c1_witness :
    getUserConfigs c1db1 "alice" ≠ []
    ∧ (getUserConfigs c1db1 "alice").countP (fun c => c.isDefault) = 1 := by
  have hr : Reach c1db1 :=
    Reach.create [] "alice" cfgBase "config_1" "t1" true Reach.empty (by decide) rfl (by simp)
  exact ⟨by decide, (c1_single_default_invariant c1db1 hr "alice" (by decide)).1 (by decide)⟩

/-- C2, evaluation at the failing input: bob owns two configs; a successful
`UpdateConfig` of `config_1` reports the delete handler's success message
and leaves the store without the record it had just updated — the
duplicated delete-handler tail of `UpdateConfig` (src/s3.go lines 870-907)
deletes the record it saved at line 866. -/
theorem c2_update_deletes_record :
    c2run.2 = UpdateOutcome.deletedOk
    ∧ (getConfigByID c2db "bob" "config_1").isSome = true
    ∧ getConfigByID c2run.1 "bob" "config_1" = none
    ∧ (getUserConfigs c2run.1 "bob").length = 1 := by
  decide

/-- C3, counterexample: an upload of exactly 5*1024*1024 bytes takes the
single `PutObject` path, not the multipart path — the branch at line 296 is
`fileSize > multipartThreshold`, strict. -/
theorem c3_counterexample :
    UploadFile allOkBackend [ReadRes.bytesEOF 1] (5 * 1024 * 1024)
      = ([MPEvent.putObject], UploadOutcome.ok) := by
  decide

/-- C3, amended: the multipart machine (whose trace always opens with the
initiate call) runs exactly when the upload is strictly larger than 5 MiB;
at or below 5 MiB the upload is a single `PutObject`. -/
theorem c3_threshold (B : Backend) (stream : List ReadRes) (fileSize : Nat) :
    (MPEvent.initiate ∈ (UploadFile B stream fileSize).1
      ↔ multipartThreshold < fileSize)
    ∧ (MPEvent.putObject ∈ (UploadFile B stream fileSize).1
      ↔ fileSize ≤ multipartThreshold) := by
  by_cases h : multipartThreshold < fileSize
  · obtain ⟨t, ht, hput⟩ := multipartUpload_trace B stream
    simp only [UploadFile, if_pos h, ht]
    constructor
    · simp [h]
    · simp only [List.mem_cons]
      constructor
      · rintro (hc | hc)
        · exact absurd hc (by simp)
        · exact absurd hc hput
      · intro hc
        omega
  · have hle : fileSize ≤ multipartThreshold := by omega
    by_cases hput : B.putOk <;>
      simp [UploadFile, h, hput, hle]

/-- C4, counterexample: a non-EOF read failure after a successful first
part, and a failed completion call, both surface their error without any
`AbortMultipartUpload` call — the code aborts only on a failed
`UploadPart` (line 340). -/
theorem c4_counterexample :
    ((multipartUpload allOkBackend [ReadRes.bytes partSize, ReadRes.readErr]).2
        = UploadOutcome.failedAt "read_part"
      ∧ MPEvent.abort ∉ (multipartUpload allOkBackend
          [ReadRes.bytes partSize, ReadRes.readErr]).1)
    ∧ ((multipartUpload completeFailsBackend [ReadRes.bytesEOF 3]).2
        = UploadOutcome.failedAt "complete_multipart"
      ∧ MPEvent.abort ∉ (multipartUpload completeFailsBackend [ReadRes.bytesEOF 3]).1) := by
  decide

/-- C4, amended: over every backend oracle and stream, the multipart
session is aborted if and only if the failure is a part upload — a failing
part upload aborts the session before the error (tagged stage
`upload_part`) is surfaced, while read errors and completion failures
surface without an abort. -/
theorem c4_abort_iff_part_failure (B : Backend) (stream : List ReadRes) :
    MPEvent.abort ∈ (multipartUpload B stream).1
      ↔ (multipartUpload B stream).2 = UploadOutcome.failedAt "upload_part" := by
  by_cases hI : B.initOk
  · simp only [multipartUpload, hI, if_true]
    exact multipartLoop_abort_iff B stream 1 [MPEvent.initiate] (by simp)
  · simp [multipartUpload, hI]

/-- C5, counterexample: for a cloud (non-minio) configuration, a failing
AWS session construction panics — `session.Must` at line 65 — instead of
failing closed. -/
theorem c5_counterexample : createS3Client true cfgBase = ClientResult.panicked := by
  decide

/-- C5, amended: the factory panics exactly when the session construction
fails for a non-minio (cloud) configuration; for self-hosted (`minio`)
configurations it never panics and fails closed, returning the nil client,
when session construction fails. -/
theorem c5_factory (sessionFails : Bool) (cfg : S3Config) :
    (createS3Client sessionFails cfg = ClientResult.panicked
      ↔ sessionFails = true ∧ ¬ cfg.storageType = "minio")
    ∧ (cfg.storageType = "minio" →
        createS3Client sessionFails cfg ≠ ClientResult.panicked)
    ∧ (cfg.storageType = "minio" → sessionFails = true →
        createS3Client sessionFails cfg = ClientResult.nilClient) := by
  by_cases hm : cfg.storageType = "minio" <;>
    cases sessionFails <;>
    simp [createS3Client, hm]

/-- C5, witness: the amended theorem applied to the self-hosted
configuration with a failing session construction. -/
theorem c5_witness :
    createS3Client true cfgMinio ≠ ClientResult.panicked
    ∧ createS3Client true cfgMinio = ClientResult.nilClient :=
  ⟨(c5_factory true cfgMinio).2.1 rfl, (c5_factory true cfgMinio).2.2 rfl rfl⟩

/-! ## Object-key lemmas for the transfer engine -/

theorem userObjKeyPre_data (u : String) :
    (userObjKeyPre u).data = "users/".data ++ (u.data ++ ['/']) := by
  simp [userObjKeyPre, String.data_append]

theorem uploadKey_data (u f : String) :
    (uploadKey u f).data = "users/".data ++ (u.data ++ '/' :: f.data) := by
  simp [uploadKey, userObjKeyPre, String.data_append]

theorem strHasPre_objKey {A B : String} (f : String) (hA : noSlash A) (hB : noSlash B) :
    strHasPre (uploadKey A f) (userObjKeyPre B) = true ↔ B = A := by
  rw [strHasPre_iff, uploadKey_data, userObjKeyPre_data, List.prefix_append_right_inj,
    sep_prefix_iff hB hA]
  constructor
  · intro h; exact String.ext h
  · intro h; rw [h]

theorem goTrimPre_of_has {s pre : String} (h : strHasPre s pre = true) :
    s = pre ++ goTrimPre s pre := by
  rw [strHasPre_iff] at h
  obtain ⟨t, ht⟩ := h
  apply String.ext
  rw [String.data_append, goTrimPre]
  rw [if_pos (by rw [strHasPre_iff]; exact ⟨t, ht⟩)]
  show s.data = pre.data ++ (s.data.drop pre.data.length)
  rw [← ht, List.drop_left]

theorem visibleFiles_mem {objs : List S3Object} {U : String} {e : FileEntry}
    (he : e ∈ visibleFiles objs U) :
    ¬ e.key = "" ∧ e.fullKey = userObjKeyPre U ++ e.key
    ∧ ∃ o ∈ objs, o.key = e.fullKey ∧ o.size = e.size := by
  simp only [visibleFiles, List.mem_filterMap] at he
  obtain ⟨o, ho, hg⟩ := he
  rw [List.mem_filter] at ho
  by_cases hdk : goTrimPre o.key (userObjKeyPre U) = ""
  · rw [if_pos hdk] at hg
    cases hg
  · rw [if_neg hdk] at hg
    obtain rfl := Option.some.inj hg
    refine ⟨hdk, ?_, o, ho.1, rfl, rfl⟩
    show o.key = userObjKeyPre U ++ goTrimPre o.key (userObjKeyPre U)
    exact goTrimPre_of_has ho.2

theorem listFiles_files_sub (objs : List S3Object) (U : String) (page ps : Int) :
    ∀ e ∈ (ListFiles objs U page ps).files, e ∈ visibleFiles objs U := by
  intro e he
  dsimp only [ListFiles] at he
  exact List.drop_subset _ _ (List.take_subset _ _ he)

/-- C6, counterexample: a filename that itself contains the tenant prefix
is listed back with the prefix still in it (the code strips only the one
leading occurrence), and an owner whose id extends another owner's id
across a slash has their object listed in the other owner's view. -/
theorem c6_counterexample :
    (ListFiles [{ key := uploadKey "alice" "users/alice/x.txt", size := 10 }]
        "alice" 1 10).files
      = [{ key := "users/alice/x.txt", fullKey := "users/alice/users/alice/x.txt",
           size := 10 }]
    ∧ strHasPre "users/alice/x.txt" (userObjKeyPre "alice") = true
    ∧ ¬ (ListFiles [{ key := uploadKey "alice/docs" "f.txt", size := 10 }]
        "alice" 1 10).files = [] := by
  decide

/-- C6, amended: upload, download and delete address exactly the key
`users/{U}/{filename}`; every listed entry has a non-empty logical name
obtained by stripping the one leading tenant prefix from a backend object
under that prefix (so a returned name contains the prefix only when the
stored filename itself did); and for slash-free distinct owner ids, one
owner's object is never visible in another owner's list. -/
theorem c6_namespacing (A B f : String) (objs : List S3Object) (page ps : Int) (sz : Nat) :
    (uploadKey A f = "users/" ++ A ++ "/" ++ f
      ∧ downloadFullKey A f = uploadKey A f
      ∧ deleteFullKey A f = uploadKey A f)
    ∧ (∀ e ∈ (ListFiles objs B page ps).files,
        ¬ e.key = "" ∧ e.fullKey = userObjKeyPre B ++ e.key
        ∧ ∃ o ∈ objs, o.key = e.fullKey ∧ o.size = e.size)
    ∧ (noSlash A → noSlash B → ¬ A = B →
        (ListFiles [{ key := uploadKey A f, size := sz }] B page ps).files = []) := by
  refine ⟨⟨?_, rfl, rfl⟩, ?_, ?_⟩
  · apply String.ext
    simp [uploadKey, userObjKeyPre, String.data_append]
  · intro e he
    exact visibleFiles_mem (listFiles_files_sub objs B page ps e he)
  · intro hA hB hAB
    have hp : strHasPre (uploadKey A f) (userObjKeyPre B) = false := by
      rw [← Bool.not_eq_true, strHasPre_objKey f hA hB]
      intro h
      exact hAB h.symm
    have hvf : visibleFiles [{ key := uploadKey A f, size := sz }] B = [] := by
      simp [visibleFiles, List.filter, hp]
    dsimp only [ListFiles]
    rw [hvf]
    simp

/-- C6, witness: the amended theorem's isolation clause at concrete owners
alice and bob. -/
theorem c6_witness :
    (ListFiles [{ key := uploadKey "alice" "report.csv", size := 10 }] "bob" 1 10).files
      = [] :=
  (c6_namespacing "alice" "bob" "report.csv" [] 1 10 10).2.2
    (by decide) (by decide) (by decide)

/-- C7, counterexample: the registry stores alice's config `c1`, yet an
administrator caller bob gets NotFound (the handler looks the id up under
the caller's own key space), a non-admin non-owner also gets NotFound
rather than Forbidden, and only alice herself retrieves the full record. -/
theorem c7_counterexample :
    GetConfigByID c7db "bob" true "c1" = GetConfigOutcome.notFound404
    ∧ GetConfigByID c7db "bob" false "c1" = GetConfigOutcome.notFound404
    ∧ GetConfigByID c7db "alice" false "c1"
        = GetConfigOutcome.ok200
            { cfgBase with id := "c1", userID := "alice", isDefault := true } := by
  decide

/-- C7, amended: on a well-formed store, `GetConfigByID` returns the full
record exactly when the id is stored under the caller's own key space (so a
caller — administrator or not — asking for another owner's id gets
NotFound), every returned record belongs to the caller, and the Forbidden
branch is unreachable. -/
theorem c7_get_authorization (db : DB) (caller : String) (isAdmin : Bool) (cid : String)
    (hG : Good db) (hcaller : noUnd caller) :
    GetConfigByID db caller isAdmin cid
      = (match getConfigByID db caller cid with
         | none => GetConfigOutcome.notFound404
         | some c => GetConfigOutcome.ok200 c)
    ∧ (∀ c, GetConfigByID db caller isAdmin cid = GetConfigOutcome.ok200 c →
        c.userID = caller)
    ∧ ¬ GetConfigByID db caller isAdmin cid = GetConfigOutcome.forbidden403 := by
  cases hget : getConfigByID db caller cid with
  | none =>
    have hstep : GetConfigByID db caller isAdmin cid = GetConfigOutcome.notFound404 := by
      simp [GetConfigByID, hget]
    refine ⟨by rw [hstep], ?_, by rw [hstep]; simp⟩
    intro c hc
    rw [hstep] at hc
    cases hc
  | some c =>
    obtain ⟨hcu, _, _⟩ := dbGet_config hG hcaller hget
    have hbeq : (c.userID == caller) = true := by simp [hcu]
    have hstep : GetConfigByID db caller isAdmin cid = GetConfigOutcome.ok200 c := by
      simp [GetConfigByID, hget, hbeq]
    refine ⟨by rw [hstep], ?_, by rw [hstep]; simp⟩
    intro c2 hc2
    rw [hstep] at hc2
    cases hc2
    exact hcu

/-- C7, witness: the amended theorem applied to alice's own request on the
concrete store. -/
theorem c7_witness :
    GetConfigByID c7db "alice" false "c1"
      = (match getConfigByID c7db "alice" "c1" with
         | none => GetConfigOutcome.notFound404
         | some c => GetConfigOutcome.ok200 c) :=
  (c7_get_authorization c7db "alice" false "c1"
    ⟨by decide, by decide, by decide⟩ (by decide)).1

theorem toSafeConfig_secret_irrel (c : S3Config) (s : String) :
    toSafeConfig { c with secretKey := s } = toSafeConfig c := rfl

/-- C8, counterexample: the list response is identical for two stores that
differ only in the secret key — the handler omits the secret entirely
rather than redacting it to a prefix plus mask — and no string in the
response equals any prefix of the secret followed by the `****` mask (the
prefix-plus-mask redaction is applied to the access key instead). -/
theorem c8_counterexample :
    GetConfigs [(configKey "u" "c1", cfgBase)] "u"
      = GetConfigs [(configKey "u" "c1", { cfgBase with secretKey := "DIFFERENT" })] "u"
    ∧ ¬ cfgBase.secretKey = "DIFFERENT"
    ∧ ((List.range (cfgBase.secretKey.data.length + 1)).all (fun n =>
        !((safeStringFields (toSafeConfig cfgBase)).contains
          (String.mk (cfgBase.secretKey.data.take n) ++ "****")))) = true := by
  decide

/-- C8, amended: the configuration list response never depends on any
stored secret key — rewriting every secret in the store by an arbitrary
function leaves the response unchanged, so no part of any secret ever
appears in a list response. -/
theorem c8_secret_not_in_list (db : DB) (u : String) (f : String → String) :
    GetConfigs (db.map (fun kv => (kv.1, { kv.2 with secretKey := f kv.2.secretKey }))) u
      = GetConfigs db u := by
  induction db with
  | nil => rfl
  | cons kv rest ih =>
    simp only [List.map_cons]
    unfold GetConfigs
    rw [getUserConfigs_cons, getUserConfigs_cons]
    by_cases hp : strHasPre kv.1 (userKeyPre u)
    · rw [if_pos hp, if_pos hp]
      simp only [List.map_cons]
      rw [toSafeConfig_secret_irrel]
      exact congrArg (List.cons (toSafeConfig kv.2)) ih
    · rw [if_neg hp, if_neg hp]
      exact ih

/-- C9: `ListFiles` clamps `page` to at least 1 and out-of-range or invalid
`pageSize` to the default 10 (always landing in 1..100), reports the total
as the full count of visible objects, returns an empty page rather than an
error whenever the requested window starts at or beyond the total, and on
an empty backend returns an empty page with total 0. -/
theorem c9_pagination (objects : List S3Object) (userID : String) (page pageSize : Int) :
    (1 ≤ (ListFiles objects userID page pageSize).page
      ∧ 1 ≤ (ListFiles objects userID page pageSize).pageSize
      ∧ (ListFiles objects userID page pageSize).pageSize ≤ 100)
    ∧ (ListFiles objects userID page pageSize).total
        = (visibleFiles objects userID).length
    ∧ (((ListFiles objects userID page pageSize).total : Int)
        ≤ ((ListFiles objects userID page pageSize).page - 1)
          * (ListFiles objects userID page pageSize).pageSize
        → (ListFiles objects userID page pageSize).files = [])
    ∧ (objects = [] → (ListFiles objects userID page pageSize).files = []
        ∧ (ListFiles objects userID page pageSize).total = 0) := by
  dsimp only [ListFiles]
  refine ⟨⟨?_, ?_, ?_⟩, rfl, ?_, ?_⟩
  · split <;> omega
  · split <;> omega
  · split <;> omega
  · intro hle
    set s : Int := ((if page < 1 then 1 else page) - 1)
      * (if pageSize < 1 ∨ pageSize > 100 then 10 else pageSize) with hs
    set n : Nat := (visibleFiles objects userID).length with hn
    have hdrop : (visibleFiles objects userID).drop
        (if s > (n : Int) then (n : Int) else s).toNat = [] := by
      apply List.drop_eq_nil_of_le
      rw [← hn]
      split <;> omega
    rw [hdrop]
    simp
  · intro hobj
    subst hobj
    constructor <;> simp [visibleFiles]

/-- C9, witness: the theorem applied to an empty backend with an
out-of-range page and pageSize. -/
theorem c9_witness :
    (ListFiles [] "u" 5 200).files = [] ∧ (ListFiles [] "u" 5 200).total = 0 :=
  (c9_pagination [] "u" 5 200).2.2.2 rfl

/-- C10, counterexample: with a resolvable default configuration and a
working client, a `GetObject` that fails with NoSuchKey (the missing-object
error) is surfaced as a generic 500 response, not a 404. -/
theorem c10_counterexample :
    (DownloadFile c7db "alice" "" "missing.txt" false
        (fun _ => GetObjectRes.noSuchKey)).status = 500
    ∧ ¬ (DownloadFile c7db "alice" "" "missing.txt" false
        (fun _ => GetObjectRes.noSuchKey)).status = 404 := by
  decide

/-- C10, amended: a download responds 404 exactly when the configuration
cannot be resolved; once a configuration resolves and a client is built,
every `GetObject` failure — the missing-key error included — is surfaced as
the generic 500 outcome. -/
theorem c10_download_errors (db : DB) (u configID key : String) (sf : Bool)
    (getObject : String → GetObjectRes) :
    ((DownloadFile db u configID key sf getObject).status = 404
      ↔ (if !(configID == "") then getConfigByID db u configID
          else getDefaultConfig db u) = none)
    ∧ (∀ cfg, (if !(configID == "") then getConfigByID db u configID
          else getDefaultConfig db u) = some cfg →
        ¬ createS3Client sf cfg = ClientResult.panicked →
        getObject (userObjKeyPre u ++ key) = GetObjectRes.noSuchKey →
        (DownloadFile db u configID key sf getObject).status = 500) := by
  cases hres : (if !(configID == "") then getConfigByID db u configID
      else getDefaultConfig db u) with
  | none =>
    have hres2 : (if configID = "" then getDefaultConfig db u
        else getConfigByID db u configID) = none := by simpa using hres
    have hd : DownloadFile db u configID key sf getObject
        = { status := 404, servedKey := none } := by
      simp [DownloadFile, hres2]
    rw [hd]
    refine ⟨by simp, ?_⟩
    intro cfg hcfg
    cases hcfg
  | some cfg =>
    have hres2 : (if configID = "" then getDefaultConfig db u
        else getConfigByID db u configID) = some cfg := by simpa using hres
    cases hcl : createS3Client sf cfg with
    | nilClient =>
      have hd : DownloadFile db u configID key sf getObject
          = { status := 500, servedKey := none } := by
        simp [DownloadFile, hres2, hcl]
      rw [hd]
      refine ⟨by simp, ?_⟩
      intro cfg2 hcfg _ _
      rfl
    | panicked =>
      have hd : DownloadFile db u configID key sf getObject
          = { status := 0, servedKey := none } := by
        simp [DownloadFile, hres2, hcl]
      rw [hd]
      refine ⟨by simp, ?_⟩
      intro cfg2 hcfg hpan _
      obtain rfl := Option.some.inj hcfg
      exact absurd hcl hpan
    | client r e p d a s =>
      cases hobj : getObject (userObjKeyPre u ++ key) with
      | found ct cl =>
        have hd : DownloadFile db u configID key sf getObject
            = { status := 200, servedKey := some (userObjKeyPre u ++ key) } := by
          simp [DownloadFile, hres2, hcl, hobj]
        rw [hd]
        refine ⟨by simp, ?_⟩
        intro cfg2 hcfg _ hget
        cases hget
      | noSuchKey =>
        have hd : DownloadFile db u configID key sf getObject
            = { status := 500, servedKey := none } := by
          simp [DownloadFile, hres2, hcl, hobj]
        rw [hd]
        exact ⟨by simp, fun _ _ _ _ => rfl⟩
      | otherErr m =>
        have hd : DownloadFile db u configID key sf getObject
            = { status := 500, servedKey := none } := by
          simp [DownloadFile, hres2, hcl, hobj]
        rw [hd]
        exact ⟨by simp, fun _ _ _ _ => rfl⟩

/-- C10, witness: the amended theorem applied to alice's store and a
backend whose object is missing. -/
theorem c10_witness :
    (DownloadFile c7db "alice" "" "missing.txt" false
        (fun _ => GetObjectRes.noSuchKey)).status = 500 :=
  (c10_download_errors c7db "alice" "" "missing.txt" false
      (fun _ => GetObjectRes.noSuchKey)).2
    { cfgBase with id := "c1", userID := "alice", isDefault := true }
    (by decide) (by decide) rfl

end S3mgr
